import Mathlib

/-!
# hfw2 request dispatcher (`router.go`)

A shallow embedding of `Router`, `recoverPanic` and `holdConcurrenceChan`,
followed by `formatURL` and `Handler` of the same file, `pac.Check`
(pac/common.go), `XormDao.Exec` (db/xorm_dao.go) and
`ClientCreds.GetCredentialsByCA` (grpc/client/client.go).

A Go function body is embedded as a function that produces the chronological
list of effects it performs (its *trace*) together with the panic, if any,
that leaves the function.  `defer` statements push onto a stack that is
unwound last-in first-out when the body returns or panics.  Effects on shared
state (the wait-group counter of `signalContext`, the buffered channel
`concurrenceChan`) are given their meaning by replaying a trace over that
state.

Read from the environment, as fields of `Request`: the log level, the gRPC
test of line 35, the sizes of the route tables, the context handed out by the
pool, test mode, the concurrency limit, the case of the `select` that fires,
the action found by `findInstance`, and how each hook call ends.  Logging,
`httpCtx.init`, `formatURL` and `findInstance` are taken to return, and a
panic value is never nil.
-/

namespace Hfw

/-! ## Values and effects -/

/-- Value carried by a Go panic: the package error `ErrStopRun` (the stop
signal) or any other non-nil value. -/
inductive PanicVal where
  | ErrStopRun
  | other (msg : String)
  deriving DecidableEq, Repr

/-- How a call ends: it returns, or it panics with a value. -/
inductive Outcome where
  | returns
  | panics (v : PanicVal)
  deriving DecidableEq, Repr

/-- The call sites `reflectVal.MethodByName(name).Call(initValue)` of
`router.go`.  `Action name` is the call at line 84, whose method name comes
from `findInstance`; `NotFound` is never called by `Router` directly. -/
inductive Hook where
  | Init
  | Before
  | Action (name : String)
  | After
  | Finish
  | NotFound
  | ServerError
  deriving DecidableEq, Repr

/-- Identity of the pooled `*HTTPContext` (the single element of `initValue`). -/
abbrev Ctx := Nat

/-- Observable effects of one `Router` execution, in source order. -/
inductive Event where
  | debugStart
  | debugEnd
  | WgAdd
  | WgDone
  | grpcServeHTTP
  | poolGet (c : Ctx)
  | poolPut (c : Ctx)
  | ctxInit (c : Ctx)
  | cancel (c : Ctx)
  | goCloseNotify (c : Ctx)
  | hijack (c : Ctx)
  | connClose (c : Ctx)
  | chanSend
  | chanRecv
  | logWarn (msg : String)
  | logFatal
  | call (h : Hook) (arg : Ctx)
  deriving DecidableEq, Repr

/-- A deferred call, as registered by a `defer` statement of `Router`. -/
inductive Deferred where
  | debugEnd
  | WgDone
  | poolPut (c : Ctx)
  | cancel (c : Ctx)
  | chanRecv
  | call (h : Hook) (arg : Ctx)
  | recoverPanic (arg : Ctx)
  deriving DecidableEq, Repr

/-- Execution state of a function body: effects so far and the defer stack
(most recently deferred call first). -/
structure Frame where
  trace : List Event
  defers : List Deferred
  deriving DecidableEq, Repr

/-- Perform an effect. -/
def Frame.emit (f : Frame) (e : Event) : Frame :=
  { f with trace := f.trace ++ [e] }

/-- Register a deferred call. -/
def Frame.defer (f : Frame) (d : Deferred) : Frame :=
  { f with defers := d :: f.defers }

/-- What a finished `Router` call leaves behind: its effects and the panic
that propagates to its caller (`none` when it returns normally). -/
structure Result where
  trace : List Event
  escaped : Option PanicVal
  deriving DecidableEq, Repr

/-- The panic state after a call made while the panic state is `cur`: a
panicking call replaces the panic in flight, a returning call leaves it. -/
def afterCall (o : Outcome) (cur : Option PanicVal) : Option PanicVal :=
  match o with
  | .returns => cur
  | .panics v => some v

/-! ## `recoverPanic` (router.go 88-101) -/

/-- `recoverPanic`, run as a deferred call while the panic state is `cur`.
`recover()` yields the panic in flight and stops the panicking; `ErrStopRun`
returns at once, any other value is logged and `ServerError` is called. -/
def recoverPanic (hook : Hook → Outcome) (c : Ctx) (tr : List Event)
    (cur : Option PanicVal) : List Event × Option PanicVal :=
  match cur with
  | none => (tr, none)
  | some err =>
    if err = PanicVal.ErrStopRun then (tr, none)
    else
      (tr ++ [Event.logFatal, Event.call Hook.ServerError c],
        afterCall (hook Hook.ServerError) none)

/-- Run one deferred call. -/
def runDeferred (hook : Hook → Outcome) (d : Deferred) (tr : List Event)
    (cur : Option PanicVal) : List Event × Option PanicVal :=
  match d with
  | .debugEnd => (tr ++ [Event.debugEnd], cur)
  | .WgDone => (tr ++ [Event.WgDone], cur)
  | .poolPut c => (tr ++ [Event.poolPut c], cur)
  | .cancel c => (tr ++ [Event.cancel c], cur)
  | .chanRecv => (tr ++ [Event.chanRecv], cur)
  | .call h c => (tr ++ [Event.call h c], afterCall (hook h) cur)
  | .recoverPanic c => recoverPanic hook c tr cur

/-- Run a defer stack, most recently deferred call first. -/
def runDefers (hook : Hook → Outcome) :
    List Deferred → List Event → Option PanicVal → List Event × Option PanicVal
  | [], tr, cur => (tr, cur)
  | d :: ds, tr, cur =>
    runDefers hook ds (runDeferred hook d tr cur).1 (runDeferred hook d tr cur).2

/-- Leave the function body with panic state `cur`: unwind the defer stack. -/
def unwind (hook : Hook → Outcome) (f : Frame) (cur : Option PanicVal) : Result :=
  { trace := (runDefers hook f.defers f.trace cur).1
    escaped := (runDefers hook f.defers f.trace cur).2 }

/-! ## `holdConcurrenceChan` (router.go 122-144) -/

/-- What `ResponseWriter.(http.Hijacker)` and `hj.Hijack()` give in the
timeout case. -/
inductive Hijack where
  | notHijacker
  | hijackErr (msg : String)
  | hijacked
  deriving DecidableEq, Repr

/-- The case of the `select` statement that fires. -/
inductive SelectCase where
  | ctxDone
  | shutdown
  | timeout (hj : Hijack)
  | send
  deriving DecidableEq, Repr

/-- `holdConcurrenceChan`: the effects performed and the returned error
(`none` is Go's `nil`). -/
def holdConcurrenceChan (c : Ctx) (sel : SelectCase) : List Event × Option String :=
  match sel with
  | .ctxDone => ([], some "context canceled")
  | .shutdown => ([], some "server shutdown")
  | .timeout .notHijacker => ([], some "Hijacker err")
  | .timeout (.hijackErr msg) => ([Event.hijack c], some msg)
  | .timeout .hijacked => ([Event.hijack c, Event.connClose c], some "timeout")
  | .send => ([Event.chanSend], none)

/-! ## `Router` (router.go 22-86) -/

/-- Everything one `Router` call reads from its environment. -/
structure Request where
  /-- Value of `logger.Level() == logger.DEBUG`. -/
  debug : Bool
  /-- Value of `r.ProtoMajor`. -/
  protoMajor : Nat
  /-- Whether the `Content-Type` header contains `application/grpc`. -/
  contentTypeGrpc : Bool
  /-- Whether `server.GetGrpcServer()` is non-nil. -/
  grpcServer : Bool
  /-- Outcome of the gRPC server's `ServeHTTP`. -/
  grpcServe : Outcome
  /-- Value of `len(routeMap)`. -/
  routeMapLen : Nat
  /-- Value of `len(routeMapMethod)`. -/
  routeMapMethodLen : Nat
  /-- The context handed out by `httpCtxPool.Get()`. -/
  httpCtx : Ctx
  /-- Value of `common.IsGoTest()`. -/
  isGoTest : Bool
  /-- Value of `Config.Server.Concurrence` (a `uint`). -/
  concurrence : Nat
  /-- The `select` case that fires in `holdConcurrenceChan`. -/
  sel : SelectCase
  /-- The method name returned by `findInstance`. -/
  action : String
  /-- Outcome of each hook call.  `Router` reaches every call site at most once
  per request, so one outcome per call site describes any execution. -/
  hook : Hook → Outcome

/-- Call a hook: the call is recorded and its outcome is returned. -/
def callHook (rq : Request) (h : Hook) (f : Frame) : Frame × Outcome :=
  (f.emit (Event.call h rq.httpCtx), rq.hook h)

/-- Lines 70-86 of `Router`: the controller lifecycle, entered with frame `f`. -/
def lifecycle (rq : Request) (f : Frame) : Result :=
  let c := rq.httpCtx
  match callHook rq Hook.Init f with
  | (f, .panics v) => unwind rq.hook f (some v)
  | (f, .returns) =>
    let f := f.defer (Deferred.call Hook.Finish c)
    let f := f.defer (Deferred.recoverPanic c)
    match callHook rq Hook.Before f with
    | (f, .panics v) => unwind rq.hook f (some v)
    | (f, .returns) =>
      let f := f.defer (Deferred.call Hook.After c)
      match callHook rq (Hook.Action rq.action) f with
      | (f, .panics v) => unwind rq.hook f (some v)
      | (f, .returns) => unwind rq.hook f none

/-- Lines 59-68 of `Router` followed by the lifecycle: admission through the
concurrency gate when it applies. -/
def gateThenLifecycle (rq : Request) (f : Frame) : Result :=
  if !rq.isGoTest && decide (rq.concurrence > 0) then
    match holdConcurrenceChan rq.httpCtx rq.sel with
    | (evs, some err) =>
      unwind rq.hook ({ f with trace := f.trace ++ evs }.emit (Event.logWarn err)) none
    | (evs, none) =>
      lifecycle rq ({ f with trace := f.trace ++ evs }.defer Deferred.chanRecv)
  else
    lifecycle rq f

/-- The whole of `Router`. -/
def Router (rq : Request) : Result :=
  let c := rq.httpCtx
  let f : Frame :=
    if rq.debug then { trace := [Event.debugStart], defers := [Deferred.debugEnd] }
    else { trace := [], defers := [] }
  let f := (f.emit Event.WgAdd).defer Deferred.WgDone
  if rq.protoMajor = 2 ∧ rq.contentTypeGrpc = true ∧ rq.grpcServer = true then
    unwind rq.hook (f.emit Event.grpcServeHTTP) (afterCall rq.grpcServe none)
  else if rq.routeMapLen = 0 ∧ rq.routeMapMethodLen = 0 then
    unwind rq.hook f (some (PanicVal.other "nil router map"))
  else
    let f := (f.emit (Event.poolGet c)).defer (Deferred.poolPut c)
    let f := f.emit (Event.ctxInit c)
    let f := f.defer (Deferred.cancel c)
    let f := f.emit (Event.goCloseNotify c)
    gateThenLifecycle rq f

/-! ## Reading a trace -/

/-- The hook calls of a trace, in order, with their argument. -/
def hookCalls (tr : List Event) : List (Hook × Ctx) :=
  tr.filterMap fun e =>
    match e with
    | .call h c => some (h, c)
    | _ => none

/-- How many times hook `h` is called in a trace. -/
def timesCalled (h : Hook) (tr : List Event) : Nat :=
  ((hookCalls tr).map Prod.fst).count h

/-- The request is not delegated to the gRPC server and the route tables are
not both empty: `Router` reaches the admission step. -/
def reachesAdmission (rq : Request) : Prop :=
  ¬ (rq.protoMajor = 2 ∧ rq.contentTypeGrpc = true ∧ rq.grpcServer = true) ∧
  ¬ (rq.routeMapLen = 0 ∧ rq.routeMapMethodLen = 0)

instance (rq : Request) : Decidable (reachesAdmission rq) := by
  unfold reachesAdmission; infer_instance

/-- Admission through the gate is attempted (line 59). -/
def gated (rq : Request) : Prop :=
  rq.isGoTest = false ∧ 0 < rq.concurrence

instance (rq : Request) : Decidable (gated rq) := by
  unfold gated; infer_instance

/-- The request reaches line 70: admission is skipped or acquires a slot. -/
def reachesLifecycle (rq : Request) : Prop :=
  reachesAdmission rq ∧ (gated rq → rq.sel = SelectCase.send)

instance (rq : Request) : Decidable (reachesLifecycle rq) := by
  unfold reachesLifecycle; infer_instance

/-- The effect of a deferred call that calls no hook (`none` for the deferred
hook calls and for `recoverPanic`). -/
def teardownEvent : Deferred → Option Event
  | .debugEnd => some Event.debugEnd
  | .WgDone => some Event.WgDone
  | .poolPut c => some (Event.poolPut c)
  | .cancel c => some (Event.cancel c)
  | .chanRecv => some Event.chanRecv
  | .call _ _ => none
  | .recoverPanic _ => none

/-- Effects of `Router` before line 70 when the lifecycle is reached. -/
def entryTrace (rq : Request) : List Event :=
  (if rq.debug then [Event.debugStart] else []) ++
    [Event.WgAdd, Event.poolGet rq.httpCtx, Event.ctxInit rq.httpCtx,
      Event.goCloseNotify rq.httpCtx] ++
    (if gated rq then [Event.chanSend] else [])

/-- Effects of the deferred calls registered before line 70. -/
def exitTrace (rq : Request) : List Event :=
  (if gated rq then [Event.chanRecv] else []) ++
    [Event.cancel rq.httpCtx, Event.poolPut rq.httpCtx, Event.WgDone] ++
    (if rq.debug then [Event.debugEnd] else [])

/-- Whether an outcome is a panic with a value other than `ErrStopRun`. -/
def isFault : Outcome → Bool
  | .panics (.other _) => true
  | _ => false

/-- Admission through the gate is attempted and acquires a slot:
`holdConcurrenceChan` returns `nil`. -/
def acquired (rq : Request) : Prop :=
  reachesAdmission rq ∧ gated rq ∧ rq.sel = SelectCase.send

instance (rq : Request) : Decidable (acquired rq) := by
  unfold acquired; infer_instance

/-! ## Shared state -/

/-- Modelled from the spec: the methods `WgAdd` and `WgDone` of `signalContext`
(not part of the sources at hand) increment and decrement the pending-request
counter of the shutdown coordinator. -/
def pendingStep (n : Int) : Event → Int
  | .WgAdd => n + 1
  | .WgDone => n - 1
  | _ => n

/-- The pending-request counter after the effects of a trace. -/
def pendingAfter (tr : List Event) (n : Int) : Int :=
  tr.foldl pendingStep n

/-- The wait-group effects of a trace. -/
def wgEvents (tr : List Event) : List Event :=
  tr.filter fun e => decide (e = Event.WgAdd ∨ e = Event.WgDone)

/-- Modelled from the spec: `concurrenceChan` (created outside the sources at
hand) is a buffered channel whose capacity `cap` is the configured concurrency
limit.  With `len` values buffered, a send needs room and a receive needs a
value; `none` means that the operation blocks. -/
def chanStep (cap : Nat) (len : Nat) : Event → Option Nat
  | .chanSend => if len < cap then some (len + 1) else none
  | .chanRecv => if 0 < len then some (len - 1) else none
  | _ => some len

/-- The number of buffered values after the effects of a trace, run without
interference on a channel holding `len` values. -/
def chanAfter (cap : Nat) : List Event → Nat → Option Nat
  | [], len => some len
  | e :: tr, len => (chanStep cap len e).bind (chanAfter cap tr)

/-- The channel effects of a trace. -/
def gateEvents (tr : List Event) : List Event :=
  tr.filter fun e => decide (e = Event.chanSend ∨ e = Event.chanRecv)

/-! ## Concurrent executions -/

/-- One `Router` execution under way: the effects it has performed and the
effects it has yet to perform. -/
structure Task where
  done : List Event
  todo : List Event
  deriving DecidableEq, Repr

/-- Concurrent `Router` executions sharing `concurrenceChan`, which holds
`chanLen` values. -/
structure System where
  chanLen : Nat
  tasks : List Task
  deriving DecidableEq, Repr

/-- The requests `rqs` arrive: no execution has started, the channel is empty. -/
def startSystem (rqs : List Request) : System :=
  { chanLen := 0, tasks := rqs.map fun rq => { done := [], todo := (Router rq).trace } }

/-- Execution `i` performs its next effect.  `none` when there is no such
execution, when it has finished, or when its next effect is a channel
operation that blocks. -/
def stepTask (cap : Nat) (s : System) (i : Nat) : Option System :=
  match s.tasks[i]? with
  | none => none
  | some t =>
    match t.todo with
    | [] => none
    | e :: rest =>
      match chanStep cap s.chanLen e with
      | none => none
      | some len =>
        some { chanLen := len, tasks := s.tasks.set i { done := t.done ++ [e], todo := rest } }

/-- An interleaving: the executions named by the schedule take one step each,
in order.  `none` when a scheduled step cannot be taken. -/
def runSchedule (cap : Nat) : System → List Nat → Option System
  | s, [] => some s
  | s, i :: is => (stepTask cap s i).bind fun s1 => runSchedule cap s1 is

/-- The execution is between its successful send on `concurrenceChan` and its
receive: it holds a slot. -/
def inFlight (t : Task) : Bool :=
  decide (Event.chanSend ∈ t.done) && !decide (Event.chanRecv ∈ t.done)

/-- The next effect of the execution is a hook call. -/
def atHook (t : Task) : Bool :=
  match t.todo with
  | Event.call _ _ :: _ => true
  | _ => false

/-- The next effect of the execution is the send on `concurrenceChan`: it is
inside `holdConcurrenceChan`, waiting for a slot. -/
def atGate (t : Task) : Bool :=
  match t.todo with
  | Event.chanSend :: _ => true
  | _ => false

/-- Where an execution stands with respect to the gate. -/
inductive Phase where
  | before
  | inside
  | after
  deriving DecidableEq, Repr

/-- The phase after one effect; `none` when the effect is out of place: a
send anywhere but before the gate, a receive or a hook call anywhere but
inside it. -/
def phaseStep : Phase → Event → Option Phase
  | .before, .chanSend => some Phase.inside
  | _, .chanSend => none
  | .inside, .chanRecv => some Phase.after
  | _, .chanRecv => none
  | .inside, .call _ _ => some Phase.inside
  | _, .call _ _ => none
  | ph, _ => some ph

/-- The phase after the effects of a trace. -/
def phaseAfter : Phase → List Event → Option Phase
  | ph, [] => some ph
  | ph, e :: tr => (phaseStep ph e).bind fun q => phaseAfter q tr

/-- The phase an execution has reached. -/
def taskPhase (t : Task) : Option Phase :=
  phaseAfter Phase.before t.done

/-- The execution has reached the phase inside the gate. -/
def holdsSlot (t : Task) : Bool :=
  decide (taskPhase t = some Phase.inside)

/-- What every reachable system satisfies: each execution keeps its channel
operations and hook calls in place, and the channel holds one value per
execution inside the gate, never more than its capacity. -/
structure GateInv (cap : Nat) (s : System) : Prop where
  wellGated : ∀ t ∈ s.tasks, (phaseAfter Phase.before (t.done ++ t.todo)).isSome = true
  len_eq : s.chanLen = s.tasks.countP holdsSlot
  len_le : s.chanLen ≤ cap

/-! ## Sample requests -/

/-- A plain HTTP request to a served route, admitted through a gate of size 2;
`hook` gives the outcome of each hook. -/
def sampleRequest (hook : Hook → Outcome) : Request :=
  { debug := false, protoMajor := 1, contentTypeGrpc := false, grpcServer := false,
    grpcServe := Outcome.returns, routeMapLen := 1, routeMapMethodLen := 0, httpCtx := 7,
    isGoTest := false, concurrence := 2, sel := SelectCase.send, action := "Index",
    hook := hook }

/-- Every hook returns. -/
def allReturn : Hook → Outcome :=
  fun _ => Outcome.returns

/-- Only the hook `h` panics, with value `v`. -/
def onlyPanics (h : Hook) (v : PanicVal) : Hook → Outcome :=
  fun k => if k = h then Outcome.panics v else Outcome.returns

/-- The hook `h1` panics with `v1`, the hook `h2` with `v2`, every other hook
returns. -/
def twoPanic (h1 : Hook) (v1 : PanicVal) (h2 : Hook) (v2 : PanicVal) : Hook → Outcome :=
  fun k =>
    if k = h1 then Outcome.panics v1
    else if k = h2 then Outcome.panics v2
    else Outcome.returns

/-- Two requests meeting a gate of size 1. -/
def twoRequests : List Request :=
  [{ sampleRequest allReturn with concurrence := 1 },
    { sampleRequest allReturn with concurrence := 1, httpCtx := 8 }]

/-- The first request runs up to and including its send, the second up to
its send. -/
def gateSchedule : List Nat :=
  [0, 0, 0, 0, 0, 1, 1, 1, 1]

/-- The system reached by `gateSchedule`: the first request holds the only
slot, the second waits for it. -/
def gateState : System :=
  (runSchedule 1 (startSystem twoRequests) gateSchedule).getD { chanLen := 0, tasks := [] }

/-! ## Strings (Go package `strings`) -/

/-- A Go string, as its sequence of characters. -/
abbrev Str := List Char

/-- `strings.ToLower`, with `lower` standing for `unicode.ToLower` on one
character. -/
def ToLower (lower : Char → Char) (s : Str) : Str :=
  s.map lower

/-- `strings.Trim(s, cutset)` for a cutset of one character: the leading and
the trailing occurrences of `cut` are removed. -/
def Trim (cut : Char) (s : Str) : Str :=
  ((s.dropWhile fun c => c == cut).reverse.dropWhile fun c => c == cut).reverse

/-- The text before and the text after the first occurrence of `sep`
(`strings.Index` followed by the two slices); `none` when `sep` is absent. -/
def cutAt (sep : Char) : Str → Option (Str × Str)
  | [] => none
  | c :: s =>
    if c = sep then some ([], s)
    else
      match cutAt sep s with
      | none => none
      | some (a, b) => some (c :: a, b)

/-- `strings.SplitN(s, sep, n)` for a separator of one character and `n ≥ 0`:
at most `n` pieces, the last one being the unsplit remainder. -/
def SplitN (sep : Char) : Nat → Str → List Str
  | 0, _ => []
  | 1, s => [s]
  | n + 2, s =>
    match cutAt sep s with
    | none => [s]
    | some (a, b) => a :: SplitN sep (n + 1) b

/-- `strings.Split(s, sep)` for a separator of one character: `SplitN` with
`n` the number of separators plus one. -/
def Split (sep : Char) (s : Str) : List Str :=
  SplitN sep (s.count sep + 1) s

/-- `strings.Join(elems, sep)` for a separator of one character. -/
def Join (sep : Char) : List Str → Str
  | [] => []
  | [a] => a
  | a :: b :: rest => a ++ sep :: Join sep (b :: rest)

/-! ## `formatURL` (router.go 241-259) -/

/-- `Config.Route` (configs/config.go). -/
structure RouteConfig where
  DefaultController : Str
  DefaultAction : Str
  deriving DecidableEq, Repr

/-- `formatURL`.  Indexing is checked: `none` stands for the panic of an index
out of range. -/
def formatURL (cfg : RouteConfig) (lower : Char → Char) (url : Str) :
    Option (Str × Str × Str) := do
  let trimURL := Trim '/' (ToLower lower url)
  let urls := SplitN '/' 3 trimURL
  let urls := if urls.length = 1 then urls ++ [cfg.DefaultAction] else urls
  let u0 ← urls[0]?
  let urls := if u0 = [] then urls.set 0 cfg.DefaultController else urls
  let u1 ← urls[1]?
  let urls := if u1 = [] then urls.set 1 cfg.DefaultAction else urls
  let leave ← if urls.length = 3 then urls[2]? else some []
  let controller ← urls[0]?
  let action ← urls[1]?
  pure (controller, action, leave)

/-- The configuration used in the examples: defaults `index` and `index`. -/
def sampleConfig : RouteConfig :=
  { DefaultController := "index".toList, DefaultAction := "index".toList }

/-- Lower-casing of the letters `A` to `Z`, used in the examples. -/
def asciiLower (c : Char) : Char :=
  c.toLower

/-- The segments of the lower-cased, slash-trimmed path, all of them. -/
def pathSegments (lower : Char → Char) (url : Str) : List Str :=
  Split '/' (Trim '/' (ToLower lower url))

/-! ## Maps (Go `map[string]V`) -/

/-- A Go map with string keys, as the list of its entries, one per key. -/
abbrev Map (V : Type) := List (Str × V)

/-- The lookup `m[key]`: the value and `ok`, as an option. -/
def mapGet {V : Type} : Map V → Str → Option V
  | [], _ => none
  | (k, v) :: m, key => if k = key then some v else mapGet m key

/-- The assignment `m[key] = val`. -/
def mapSet {V : Type} : Map V → Str → V → Map V
  | [], key, val => [(key, val)]
  | (k, v) :: m, key, val => if k = key then (k, val) :: m else (k, v) :: mapSet m key val

/-! ## Package `pac` (pac/common.go) -/

/-- `pac.Add`: the rule table after `pac[key] = val`. -/
def Pac.Add (pac : Map Bool) (key : Str) (val : Bool) : Map Bool :=
  mapSet pac key val

/-- `pac.Check` on the rule table `pac`.  Indexing is checked: `none` stands
for the panic of an index out of range. -/
def Pac.Check (pac : Map Bool) (addr : Str) : Option Bool :=
  if pac.length = 0 then some false
  else do
    let host ← (Split ':' addr)[0]?
    let hosts := Split '.' host
    pure (((List.range hosts.length).findSome? fun pos =>
      mapGet pac (Join '.' (hosts.drop pos))).getD false)

/-- The rule table built from the empty one by a sequence of `Add` calls. -/
def Pac.build (rules : List (Str × Bool)) : Map Bool :=
  rules.foldl (fun pac r => Pac.Add pac r.1 r.2) []

/-- The text of an address before its first `:`. -/
def hostOf (addr : Str) : Str :=
  addr.takeWhile fun c => c != ':'

/-- The parts of a string that start right after one of its dots, longest
first. -/
def afterDots : Str → List Str
  | [] => []
  | c :: s => if c = '.' then s :: afterDots s else afterDots s

/-- The dot-separated suffixes of a host: the whole host, then the host with
its leading labels removed one at a time. -/
def domainSuffixes (host : Str) : List Str :=
  host :: afterDots host

/-- The value that the rules give to the first listed key that is a key of
the table. -/
def firstRule (pac : Map Bool) (keys : List Str) : Option Bool :=
  keys.findSome? (mapGet pac)

/-- Rules for a domain and for one of its subdomains. -/
def sampleRules : List (Str × Bool) :=
  [("example.com".toList, true), ("cdn.example.com".toList, false)]

/-! ## `XormDao.Exec` and `XormDao.Replace` (db/xorm_dao.go 265-294) -/

/-- An `interface{}` value handed to the database engine. -/
inductive SqlArg where
  | null
  | text (s : Str)
  | int (n : Int)
  deriving DecidableEq, Repr

/-- The slice `tmp` that `XormDao.Exec` builds: `len(args)+1` nil values, then
the statement, then the arguments. -/
def XormDao.Exec.tmp (sqlStr : Str) (args : List SqlArg) : List SqlArg :=
  (List.replicate (args.length + 1) SqlArg.null ++ [SqlArg.text sqlStr]) ++ args

/-- `XormDao.Exec`, with `engineExec` standing for `d.engine.Exec`.  The slice
`tmp` is built and left aside: line 293 is `d.engine.Exec(args...)`. -/
def XormDao.Exec {R : Type} (engineExec : List SqlArg → R) (sqlStr : Str)
    (args : List SqlArg) : R :=
  let _tmp := XormDao.Exec.tmp sqlStr args
  engineExec args

/-- The keys that `XormDao.Replace` skips. -/
def replaceSkipped : List Str :=
  ["orderby".toList, "page".toList, "pagesize".toList, "where".toList]

/-- The loop of `XormDao.Replace` over `cond`, visited in the order `cond`
lists its entries: the assignments and their bind values. -/
def XormDao.Replace.loop (lower : Char → Char) :
    List (Str × SqlArg) → List Str × List SqlArg
  | [] => ([], [])
  | (k, v) :: cond =>
    let k := ToLower lower k
    if k ∈ replaceSkipped then XormDao.Replace.loop lower cond
    else
      (('`' :: k ++ "` = ?".toList) :: (XormDao.Replace.loop lower cond).1,
        v :: (XormDao.Replace.loop lower cond).2)

/-- `strings.Join` for a separator of several characters. -/
def JoinStr (sep : Str) : List Str → Str
  | [] => []
  | [a] => a
  | a :: b :: rest => a ++ sep ++ JoinStr sep (b :: rest)

/-- `XormDao.Replace` up to the call of `Exec`: what the engine is called
with. -/
def XormDao.Replace {R : Type} (engineExec : List SqlArg → R) (lower : Char → Char)
    (sql : Str) (cond : List (Str × SqlArg)) : R :=
  XormDao.Exec engineExec
    (sql ++ JoinStr ", ".toList (XormDao.Replace.loop lower cond).1)
    (XormDao.Replace.loop lower cond).2

/-! ## `ClientCreds.GetCredentialsByCA` (grpc/client/client.go 67-90) -/

/-- What the calls made by `GetCredentialsByCA` give: the key pair or the
error of `tls.LoadX509KeyPair`, the content or the error of `ioutil.ReadFile`,
and the result of `certPool.AppendCertsFromPEM`. -/
structure CaCalls where
  keyPair : Except String Nat
  caFile : Except String Str
  appendOk : Bool

/-- The transport credentials built by `credentials.NewTLS`. -/
structure TLSCreds where
  certificate : Nat
  serverName : Str
  rootCAs : Str
  deriving DecidableEq, Repr

/-- `GetCredentialsByCA`: the credentials and the error, `none` for `nil`.
The variable `err` is the one assigned by the last call that returns an
error value. -/
def GetCredentialsByCA (serverName : Str) (calls : CaCalls) :
    Option TLSCreds × Option String :=
  match calls.keyPair with
  | .error e => (none, some e)
  | .ok cert =>
    match calls.caFile with
    | .error e => (none, some e)
    | .ok ca =>
      let err : Option String := none
      if !calls.appendOk then (none, err)
      else (some { certificate := cert, serverName := serverName, rootCAs := ca }, err)

/-! ## `Handler` (router.go 146-207) -/

/-- A controller value handed to `Handler`, as `reflect` shows it: its
identity, the name of its type (`reflect.Indirect(reflectVal).Type().Name()`)
and the names of its exposed methods (`rt.Method(i).Name` for
`i < rt.NumMethod()`). -/
structure Controller where
  ptr : Nat
  typeName : Str
  methods : List Str
  deriving DecidableEq, Repr

/-- The struct `instance`: a binding of a route. -/
structure Instance where
  reflectVal : Controller
  controllerName : Str
  methodName : Str
  deriving DecidableEq, Repr

/-- The package variables that `Handler` reads and writes; `handleFuncs` are
the patterns registered on the default mux of `net/http`, by `Handler` itself
or before it, for instance by `HandlerFunc` or `StaticHandler`. -/
structure Tables where
  routeInit : Bool
  handleFuncs : List Str
  routeMap : Map Instance
  routeMapMethod : Map Instance
  routeMapRegister : Map Str
  deriving DecidableEq, Repr

/-- How a call of `Handler` ends, and the tables it leaves: it returns `nil`,
it returns an error, or it panics. -/
inductive Registered where
  | ok (t : Tables)
  | error (msg : Str) (t : Tables)
  | panic (msg : Str) (t : Tables)
  deriving DecidableEq, Repr

/-- The hook names that the `switch` of `Handler` skips. -/
def hookNames : List Str :=
  ["Init".toList, "Before".toList, "After".toList, "Finish".toList, "NotFound".toList,
    "ServerError".toList]

/-- What `getRequestMethod` returns for a method name: the actions, the verb
and whether the method is verb-qualified. -/
structure RequestMethod where
  actions : List Str
  method : Str
  isMethod : Bool
  deriving DecidableEq, Repr

/-- The loop over `actions` (lines 186-202) for one method.  An error value
stands for a panic, with its message and the tables at that point. -/
def Handler.actions (controller : Str) (value : Instance) (method : Str) (isMethod : Bool) :
    List Str → Tables → Except (Str × Tables) Tables
  | [], t => Except.ok t
  | action :: rest, t =>
    if isMethod then
      let path := controller ++ '/' :: action ++ "for".toList ++ method
      if (mapGet t.routeMapMethod path).isSome then
        Except.error (path ++ " exist".toList, t)
      else
        Handler.actions controller value method isMethod rest
          { t with routeMapMethod := mapSet t.routeMapMethod path value }
    else
      let path := controller ++ '/' :: action
      if (mapGet t.routeMap path).isSome then
        Except.error (path ++ " exist".toList, t)
      else
        Handler.actions controller value method isMethod rest
          { t with routeMap := mapSet t.routeMap path value }

/-- The loop over the methods of the controller (lines 175-204);
`getRequestMethod` is given. -/
def Handler.methods (getRequestMethod : Str → RequestMethod) (controller : Str)
    (handler : Controller) (controllerName : Str) :
    List Str → Tables → Except (Str × Tables) Tables
  | [], t => Except.ok t
  | m :: ms, t =>
    if m ∈ hookNames then
      Handler.methods getRequestMethod controller handler controllerName ms t
    else
      match Handler.actions controller
          { reflectVal := handler, controllerName := controllerName, methodName := m }
          (getRequestMethod m).method (getRequestMethod m).isMethod
          (getRequestMethod m).actions t with
      | Except.error e => Except.error e
      | Except.ok t1 =>
        Handler.methods getRequestMethod controller handler controllerName ms t1

/-- The call `http.HandleFunc(pattern, h)` of the standard library with a
handler that is not nil, on the default mux, whose patterns are `handleFuncs`
and are compared as literal strings: it panics on the empty pattern and on a
pattern that is already registered there.  An error value stands for the
panic. -/
def httpHandleFunc (pattern : Str) (t : Tables) : Except (Str × Tables) Tables :=
  if pattern = [] then Except.error ("http: invalid pattern".toList, t)
  else if pattern ∈ t.handleFuncs then
    Except.error ("http: multiple registrations for ".toList ++ pattern, t)
  else Except.ok { t with handleFuncs := t.handleFuncs ++ [pattern] }

/-- `HandlerFunc` (lines 210-213): it registers on the same mux. -/
def HandlerFunc (pattern : Str) (t : Tables) : Except (Str × Tables) Tables :=
  httpHandleFunc pattern t

/-- Lines 149-153 of `Handler`: the first call sets `routeInit` and then
registers `Router` under `/` and `loggerAdjust` under `/logger/adjust`.  An
error value stands for the panic of `http.HandleFunc`. -/
def Handler.init (t : Tables) : Except (Str × Tables) Tables :=
  if !t.routeInit then
    match httpHandleFunc "/".toList { t with routeInit := true } with
    | Except.error e => Except.error e
    | Except.ok t1 => httpHandleFunc "/logger/adjust".toList t1
  else Except.ok t

/-- `Handler`. -/
def Handler (cfg : RouteConfig) (lower : Char → Char)
    (getRequestMethod : Str → RequestMethod) (pattern : Str) (handler : Controller)
    (t : Tables) : Registered :=
  match Handler.init t with
  | Except.error (msg, t1) => Registered.panic msg t1
  | Except.ok t =>
    match formatURL cfg lower pattern with
    | none => Registered.panic "index out of range".toList t
    | some (controller, _, leave) =>
      if leave ≠ [] then
        Registered.error ("pattern must only 1 or 2 segment, got ".toList ++ pattern) t
      else
        let controllerName := handler.typeName
        match mapGet t.routeMapRegister pattern with
        | some c =>
          if c ≠ controllerName then
            Registered.panic (pattern ++ " has register controller:".toList ++ c) t
          else Registered.ok t
        | none =>
          let t :=
            { t with routeMapRegister := mapSet t.routeMapRegister pattern controllerName }
          match Handler.methods getRequestMethod controller handler controllerName
              handler.methods t with
          | Except.error (msg, t1) => Registered.panic msg t1
          | Except.ok t1 => Registered.ok t1

/-- The registrations of lines 151-152 do not panic: `routeInit` is already
set, or neither `/` nor `/logger/adjust` is on the default mux. -/
def muxReady (t : Tables) : Prop :=
  t.routeInit = true ∨
    ("/".toList ∉ t.handleFuncs ∧ "/logger/adjust".toList ∉ t.handleFuncs)

instance (t : Tables) : Decidable (muxReady t) := by
  unfold muxReady; infer_instance

/-- The tables a call of `Handler` leaves. -/
def Registered.tables : Registered → Tables
  | .ok t => t
  | .error _ t => t
  | .panic _ t => t

/-- The path that `Handler` derives for an action. -/
def routePath (controller action method : Str) (isMethod : Bool) : Str :=
  if isMethod then controller ++ '/' :: action ++ "for".toList ++ method
  else controller ++ '/' :: action

/-- The map an action is registered in: `routeMapMethod` when verb-qualified,
`routeMap` otherwise. -/
def tableFor (isMethod : Bool) (t : Tables) : Map Instance :=
  if isMethod then t.routeMapMethod else t.routeMap

/-- The tables before any registration. -/
def emptyTables : Tables :=
  { routeInit := false, handleFuncs := [], routeMap := [], routeMapMethod := [],
    routeMapRegister := [] }

/-- A stand-in for `getRequestMethod` in the examples: a method whose name
ends in `ForPost` is the action of the lower-cased rest under the verb `post`,
any other method is the plain action of its lower-cased name. -/
def sampleRequestMethod (m : Str) : RequestMethod :=
  if "ForPost".toList.isSuffixOf m then
    { actions := [ToLower asciiLower (m.take (m.length - 7))], method := "post".toList,
      isMethod := true }
  else { actions := [ToLower asciiLower m], method := [], isMethod := false }

/-- A controller of type `User`. -/
def userController : Controller :=
  { ptr := 1, typeName := "User".toList,
    methods := ["Before".toList, "Init".toList, "List".toList, "SaveForPost".toList] }

/-- A controller of type `Admin` that also has a method `List`. -/
def adminController : Controller :=
  { ptr := 2, typeName := "Admin".toList, methods := ["Init".toList, "List".toList] }

/-- The tables a loop of `Handler` leaves, whether it ends or panics. -/
def loopTables : Except (Str × Tables) Tables → Tables
  | .ok t => t
  | .error (_, t) => t

/-- The tables `t1` keep what `t` holds: the same flag, handlers and
registered patterns, and every route of `t` with its binding. -/
structure Keeps (t t1 : Tables) : Prop where
  routeInit : t1.routeInit = t.routeInit
  handleFuncs : t1.handleFuncs = t.handleFuncs
  register : t1.routeMapRegister = t.routeMapRegister
  routes : ∀ isMethod k v, mapGet (tableFor isMethod t) k = some v →
    mapGet (tableFor isMethod t1) k = some v

/-- The tables after `/user` is registered for `userController`. -/
def userTables : Tables :=
  (Handler sampleConfig asciiLower sampleRequestMethod "/user".toList userController
    emptyTables).tables

/-- The tables after `HandlerFunc("/", h)` alone: `/` is on the default mux. -/
def rootHandledTables : Tables :=
  loopTables (HandlerFunc "/".toList emptyTables)

/-! # Theorems -/

/-! ## Unwinding a defer stack -/

theorem runDefers_append (hook : Hook → Outcome) (ds es : List Deferred) (tr : List Event)
    (cur : Option PanicVal) :
    runDefers hook (ds ++ es) tr cur =
      runDefers hook es (runDefers hook ds tr cur).1 (runDefers hook ds tr cur).2 := by
  induction ds generalizing tr cur with
  | nil => rfl
  | cons d ds ih => simp [runDefers, ih]

theorem runDeferred_shift (hook : Hook → Outcome) (d : Deferred) (t0 tr : List Event)
    (cur : Option PanicVal) :
    runDeferred hook d (t0 ++ tr) cur =
      (t0 ++ (runDeferred hook d tr cur).1, (runDeferred hook d tr cur).2) := by
  cases d <;> simp [runDeferred, recoverPanic]
  · cases cur with
    | none => simp
    | some v => by_cases h : v = PanicVal.ErrStopRun <;> simp [h]

theorem runDefers_shift (hook : Hook → Outcome) (ds : List Deferred) (t0 tr : List Event)
    (cur : Option PanicVal) :
    runDefers hook ds (t0 ++ tr) cur =
      (t0 ++ (runDefers hook ds tr cur).1, (runDefers hook ds tr cur).2) := by
  induction ds generalizing tr cur with
  | nil => rfl
  | cons d ds ih => simp [runDefers, runDeferred_shift, ih]

theorem runDefers_teardown (hook : Hook → Outcome) (ds : List Deferred)
    (hds : ∀ d ∈ ds, (teardownEvent d).isSome = true) (tr : List Event)
    (cur : Option PanicVal) :
    runDefers hook ds tr cur = (tr ++ ds.filterMap teardownEvent, cur) := by
  induction ds generalizing tr with
  | nil => simp [runDefers]
  | cons d ds ih =>
    have hd := hds d (List.mem_cons_self d ds)
    have ih2 := fun tr => ih (fun e he => hds e (List.mem_cons_of_mem d he)) tr
    cases d <;> simp [teardownEvent] at hd <;>
      simp [runDefers, runDeferred, teardownEvent, ih2]

theorem unwind_frame (hook : Hook → Outcome) (t0 tr : List Event) (ds es : List Deferred)
    (cur : Option PanicVal) (hes : ∀ d ∈ es, (teardownEvent d).isSome = true) :
    unwind hook { trace := t0 ++ tr, defers := ds ++ es } cur =
      { trace := t0 ++ (unwind hook { trace := tr, defers := ds } cur).trace
          ++ es.filterMap teardownEvent
        escaped := (unwind hook { trace := tr, defers := ds } cur).escaped } := by
  simp [unwind, runDefers_append, runDefers_shift, runDefers_teardown hook es hes]

/-- The lifecycle entered with pending teardown calls only: its own effects
sit between the effects so far and the effects of the teardown calls. -/
theorem lifecycle_frame (rq : Request) (f : Frame)
    (hf : ∀ d ∈ f.defers, (teardownEvent d).isSome = true) :
    lifecycle rq f =
      { trace := f.trace ++ (lifecycle rq { trace := [], defers := [] }).trace
          ++ f.defers.filterMap teardownEvent
        escaped := (lifecycle rq { trace := [], defers := [] }).escaped } := by
  obtain ⟨t0, es⟩ := f
  simp only [lifecycle, callHook, Frame.emit, Frame.defer]
  cases rq.hook Hook.Init with
  | panics v => simpa using unwind_frame rq.hook t0 _ [] es (some v) hf
  | returns =>
    cases rq.hook Hook.Before with
    | panics v => simpa using unwind_frame rq.hook t0 _ [_, _] es (some v) hf
    | returns =>
      cases rq.hook (Hook.Action rq.action) with
      | panics v => simpa using unwind_frame rq.hook t0 _ [_, _, _] es (some v) hf
      | returns => simpa using unwind_frame rq.hook t0 _ [_, _, _] es none hf

/-- A request that reaches line 70: `Router` is the lifecycle wrapped in the
entry effects and the teardown effects. -/
theorem Router_of_reachesLifecycle (rq : Request) (h : reachesLifecycle rq) :
    Router rq =
      { trace := entryTrace rq ++ (lifecycle rq { trace := [], defers := [] }).trace
          ++ exitTrace rq
        escaped := (lifecycle rq { trace := [], defers := [] }).escaped } := by
  obtain ⟨⟨hg, hr⟩, hs⟩ := h
  by_cases hgate : gated rq
  · have hsel := hs hgate
    have hgate2 := hgate
    obtain ⟨ht, hc⟩ := hgate2
    cases hd : rq.debug <;>
      simp [Router, gateThenLifecycle, hg, hr, hd, ht, hc, hsel, holdConcurrenceChan, Frame.emit,
        Frame.defer, entryTrace, exitTrace, hgate] <;>
      rw [lifecycle_frame _ _ (by simp [teardownEvent])] <;>
      simp [teardownEvent]
  · have hgate2 : ¬ (rq.isGoTest = false ∧ 0 < rq.concurrence) := hgate
    cases hd : rq.debug <;>
      simp [Router, gateThenLifecycle, hg, hr, hd, Frame.emit, Frame.defer, entryTrace, exitTrace,
        hgate, hgate2] <;>
      rw [lifecycle_frame _ _ (by simp [teardownEvent])] <;>
      simp [teardownEvent]

/-! ## Hook calls of a request that reaches the lifecycle -/

theorem hookCalls_append (a b : List Event) :
    hookCalls (a ++ b) = hookCalls a ++ hookCalls b := by
  simp [hookCalls]

theorem hookCalls_entryTrace (rq : Request) : hookCalls (entryTrace rq) = [] := by
  by_cases hg : gated rq <;> cases hd : rq.debug <;> simp [hookCalls, entryTrace, hg]

theorem hookCalls_exitTrace (rq : Request) : hookCalls (exitTrace rq) = [] := by
  by_cases hg : gated rq <;> cases hd : rq.debug <;> simp [hookCalls, exitTrace, hg]

theorem hookCalls_Router (rq : Request) (h : reachesLifecycle rq) :
    hookCalls (Router rq).trace =
      hookCalls (lifecycle rq { trace := [], defers := [] }).trace := by
  rw [Router_of_reachesLifecycle rq h]
  simp [hookCalls_append, hookCalls_entryTrace, hookCalls_exitTrace]

theorem escaped_Router (rq : Request) (h : reachesLifecycle rq) :
    (Router rq).escaped = (lifecycle rq { trace := [], defers := [] }).escaped := by
  rw [Router_of_reachesLifecycle rq h]

/-! ## Lifecycle claims -/

/-- C1 fails: the action panics with "boom" and `After`, run while that panic
is in flight, raises `ErrStopRun`; `recoverPanic` then finds `ErrStopRun` and
`ServerError` is not called at all.  And when the action panics with "boom"
and `Finish` panics with "late", the panic of `Finish` leaves `Router`. -/
theorem action_fault_ServerError_skipped :
    reachesLifecycle (sampleRequest (twoPanic (Hook.Action "Index") (PanicVal.other "boom")
      Hook.After PanicVal.ErrStopRun)) ∧
    (sampleRequest (twoPanic (Hook.Action "Index") (PanicVal.other "boom")
      Hook.After PanicVal.ErrStopRun)).hook Hook.Init = Outcome.returns ∧
    (sampleRequest (twoPanic (Hook.Action "Index") (PanicVal.other "boom")
      Hook.After PanicVal.ErrStopRun)).hook Hook.Before = Outcome.returns ∧
    (sampleRequest (twoPanic (Hook.Action "Index") (PanicVal.other "boom")
      Hook.After PanicVal.ErrStopRun)).hook (Hook.Action "Index") =
        Outcome.panics (PanicVal.other "boom") ∧
    timesCalled Hook.ServerError (Router (sampleRequest
      (twoPanic (Hook.Action "Index") (PanicVal.other "boom")
        Hook.After PanicVal.ErrStopRun))).trace = 0 ∧
    timesCalled Hook.ServerError (Router (sampleRequest
      (twoPanic (Hook.Action "Index") (PanicVal.other "boom")
        Hook.After PanicVal.ErrStopRun))).trace ≠ 1 ∧
    (Router (sampleRequest (twoPanic (Hook.Action "Index") (PanicVal.other "boom")
      Hook.Finish (PanicVal.other "late")))).escaped = some (PanicVal.other "late") := by
  decide

/-- C1, amended: a request reaches the lifecycle, `Init` and `Before` return
and the action panics with a value other than `ErrStopRun`.  Then `After` and
`Finish` are each called once; `ServerError` is called exactly once unless
`After` itself raises `ErrStopRun`, and then it is not called; the panic of the
action never leaves `Router` (a panic that leaves is one raised by
`ServerError` or `Finish`), and `Router` returns normally exactly when `Finish`
returns and `ServerError`, where it is called, returns. -/
theorem action_fault_contained (rq : Request) (hreach : reachesLifecycle rq)
    (hInit : rq.hook Hook.Init = Outcome.returns)
    (hBefore : rq.hook Hook.Before = Outcome.returns) (msg : String)
    (hAct : rq.hook (Hook.Action rq.action) = Outcome.panics (PanicVal.other msg)) :
    timesCalled Hook.After (Router rq).trace = 1 ∧
    timesCalled Hook.Finish (Router rq).trace = 1 ∧
    timesCalled Hook.ServerError (Router rq).trace ≤ 1 ∧
    (rq.hook Hook.After ≠ Outcome.panics PanicVal.ErrStopRun →
      hookCalls (Router rq).trace =
        [(Hook.Init, rq.httpCtx), (Hook.Before, rq.httpCtx),
          (Hook.Action rq.action, rq.httpCtx), (Hook.After, rq.httpCtx),
          (Hook.ServerError, rq.httpCtx), (Hook.Finish, rq.httpCtx)] ∧
      timesCalled Hook.ServerError (Router rq).trace = 1) ∧
    (rq.hook Hook.ServerError = Outcome.returns → rq.hook Hook.Finish = Outcome.returns →
      (Router rq).escaped = none) ∧
    (∀ w, (Router rq).escaped = some w →
      rq.hook Hook.ServerError = Outcome.panics w ∨ rq.hook Hook.Finish = Outcome.panics w) ∧
    (rq.hook Hook.After = Outcome.panics PanicVal.ErrStopRun →
      hookCalls (Router rq).trace =
        [(Hook.Init, rq.httpCtx), (Hook.Before, rq.httpCtx),
          (Hook.Action rq.action, rq.httpCtx), (Hook.After, rq.httpCtx),
          (Hook.Finish, rq.httpCtx)] ∧
      timesCalled Hook.ServerError (Router rq).trace = 0) ∧
    ((Router rq).escaped = none ↔
      rq.hook Hook.Finish = Outcome.returns ∧
        (rq.hook Hook.After = Outcome.panics PanicVal.ErrStopRun ∨
          rq.hook Hook.ServerError = Outcome.returns)) := by
  simp only [timesCalled, hookCalls_Router rq hreach, escaped_Router rq hreach]
  rcases hA : rq.hook Hook.After with _ | (_ | m) <;>
    rcases hS : rq.hook Hook.ServerError with _ | w <;>
    rcases hF : rq.hook Hook.Finish with _ | u <;>
    simp [lifecycle, callHook, unwind, runDefers, runDeferred, recoverPanic, afterCall,
      Frame.emit, Frame.defer, hookCalls, hInit, hBefore, hAct, hA, hS, hF]

/-- C1, amended, at a request whose action panics with "boom" while every
other hook returns. -/
theorem action_fault_contained_witness :
    reachesLifecycle (sampleRequest (onlyPanics (Hook.Action "Index") (PanicVal.other "boom"))) ∧
    hookCalls (Router (sampleRequest
        (onlyPanics (Hook.Action "Index") (PanicVal.other "boom")))).trace =
      [(Hook.Init, 7), (Hook.Before, 7), (Hook.Action "Index", 7), (Hook.After, 7),
        (Hook.ServerError, 7), (Hook.Finish, 7)] ∧
    timesCalled Hook.ServerError (Router (sampleRequest
        (onlyPanics (Hook.Action "Index") (PanicVal.other "boom")))).trace = 1 ∧
    (Router (sampleRequest
        (onlyPanics (Hook.Action "Index") (PanicVal.other "boom")))).escaped = none :=
  have h := action_fault_contained
    (sampleRequest (onlyPanics (Hook.Action "Index") (PanicVal.other "boom")))
    (by decide) (by decide) (by decide) "boom" (by decide)
  ⟨by decide, (h.2.2.2.1 (by decide)).1, (h.2.2.2.1 (by decide)).2,
    h.2.2.2.2.1 (by decide) (by decide)⟩

/-- C2: a request reaches the lifecycle and `Init`, `Before`, the action and
`After` return.  Then the hook calls are exactly `Init`, `Before`, the resolved
action, `After`, `Finish`, once each and in this order, every one with the
request's `HTTPContext`; `ServerError` is not called, and `Router` returns
normally when `Finish` returns. -/
theorem lifecycle_order (rq : Request) (hreach : reachesLifecycle rq)
    (hInit : rq.hook Hook.Init = Outcome.returns)
    (hBefore : rq.hook Hook.Before = Outcome.returns)
    (hAct : rq.hook (Hook.Action rq.action) = Outcome.returns)
    (hAfter : rq.hook Hook.After = Outcome.returns) :
    hookCalls (Router rq).trace =
      [(Hook.Init, rq.httpCtx), (Hook.Before, rq.httpCtx),
        (Hook.Action rq.action, rq.httpCtx), (Hook.After, rq.httpCtx),
        (Hook.Finish, rq.httpCtx)] ∧
    timesCalled Hook.ServerError (Router rq).trace = 0 ∧
    (rq.hook Hook.Finish = Outcome.returns → (Router rq).escaped = none) := by
  simp only [timesCalled, hookCalls_Router rq hreach, escaped_Router rq hreach]
  rcases hF : rq.hook Hook.Finish with _ | u <;>
    simp [lifecycle, callHook, unwind, runDefers, runDeferred, recoverPanic, afterCall,
      Frame.emit, Frame.defer, hookCalls, hInit, hBefore, hAct, hAfter, hF]

/-- C2 at a request all of whose hooks return. -/
theorem lifecycle_order_witness :
    reachesLifecycle (sampleRequest allReturn) ∧
    hookCalls (Router (sampleRequest allReturn)).trace =
      [(Hook.Init, 7), (Hook.Before, 7), (Hook.Action "Index", 7), (Hook.After, 7),
        (Hook.Finish, 7)] ∧
    timesCalled Hook.ServerError (Router (sampleRequest allReturn)).trace = 0 ∧
    (Router (sampleRequest allReturn)).escaped = none :=
  have h := lifecycle_order (sampleRequest allReturn) (by decide) rfl rfl rfl rfl
  ⟨by decide, h.1, h.2.1, h.2.2 rfl⟩

/-- C3 fails: the action raises `ErrStopRun` and `After`, run while that panic
is in flight, panics with "late"; `recoverPanic` then finds "late" and calls
`ServerError`. -/
theorem stop_signal_After_fault_calls_ServerError :
    reachesLifecycle (sampleRequest (twoPanic (Hook.Action "Index") PanicVal.ErrStopRun
      Hook.After (PanicVal.other "late"))) ∧
    (sampleRequest (twoPanic (Hook.Action "Index") PanicVal.ErrStopRun
      Hook.After (PanicVal.other "late"))).hook (Hook.Action "Index") =
        Outcome.panics PanicVal.ErrStopRun ∧
    timesCalled Hook.ServerError (Router (sampleRequest
      (twoPanic (Hook.Action "Index") PanicVal.ErrStopRun
        Hook.After (PanicVal.other "late")))).trace = 1 ∧
    timesCalled Hook.ServerError (Router (sampleRequest
      (twoPanic (Hook.Action "Index") PanicVal.ErrStopRun
        Hook.After (PanicVal.other "late")))).trace ≠ 0 := by
  decide

/-- C3, amended: a request reaches the lifecycle, `Init` and `Before` return
and the action panics with `ErrStopRun`.  Then `After` and `Finish` are each
called once, `After` before `Finish`; `ServerError` is not called unless
`After` itself panics with a value other than `ErrStopRun`, and then it is
called exactly once; `Router` returns normally exactly when `Finish` returns
and `ServerError`, where it is called, returns. -/
theorem stop_signal_skips_ServerError (rq : Request) (hreach : reachesLifecycle rq)
    (hInit : rq.hook Hook.Init = Outcome.returns)
    (hBefore : rq.hook Hook.Before = Outcome.returns)
    (hAct : rq.hook (Hook.Action rq.action) = Outcome.panics PanicVal.ErrStopRun) :
    timesCalled Hook.After (Router rq).trace = 1 ∧
    timesCalled Hook.Finish (Router rq).trace = 1 ∧
    hookCalls (Router rq).trace =
      [(Hook.Init, rq.httpCtx), (Hook.Before, rq.httpCtx),
        (Hook.Action rq.action, rq.httpCtx), (Hook.After, rq.httpCtx)] ++
        (if isFault (rq.hook Hook.After) then [(Hook.ServerError, rq.httpCtx)] else []) ++
        [(Hook.Finish, rq.httpCtx)] ∧
    (isFault (rq.hook Hook.After) = false →
      timesCalled Hook.ServerError (Router rq).trace = 0 ∧
      hookCalls (Router rq).trace =
        [(Hook.Init, rq.httpCtx), (Hook.Before, rq.httpCtx),
          (Hook.Action rq.action, rq.httpCtx), (Hook.After, rq.httpCtx),
          (Hook.Finish, rq.httpCtx)] ∧
      (rq.hook Hook.Finish = Outcome.returns → (Router rq).escaped = none)) ∧
    (isFault (rq.hook Hook.After) = true →
      timesCalled Hook.ServerError (Router rq).trace = 1) ∧
    ((Router rq).escaped = none ↔
      rq.hook Hook.Finish = Outcome.returns ∧
        (isFault (rq.hook Hook.After) = false ∨
          rq.hook Hook.ServerError = Outcome.returns)) := by
  simp only [timesCalled, hookCalls_Router rq hreach, escaped_Router rq hreach]
  rcases hA : rq.hook Hook.After with _ | (_ | m) <;>
    rcases hS : rq.hook Hook.ServerError with _ | w <;>
    rcases hF : rq.hook Hook.Finish with _ | u <;>
    simp [lifecycle, callHook, unwind, runDefers, runDeferred, recoverPanic, afterCall,
      Frame.emit, Frame.defer, hookCalls, isFault, hInit, hBefore, hAct, hA, hS, hF]

/-- C3, amended, at a request whose action raises `ErrStopRun` while every
other hook returns. -/
theorem stop_signal_skips_ServerError_witness :
    reachesLifecycle (sampleRequest (onlyPanics (Hook.Action "Index") PanicVal.ErrStopRun)) ∧
    timesCalled Hook.ServerError (Router (sampleRequest
        (onlyPanics (Hook.Action "Index") PanicVal.ErrStopRun))).trace = 0 ∧
    hookCalls (Router (sampleRequest
        (onlyPanics (Hook.Action "Index") PanicVal.ErrStopRun))).trace =
      [(Hook.Init, 7), (Hook.Before, 7), (Hook.Action "Index", 7), (Hook.After, 7),
        (Hook.Finish, 7)] ∧
    (Router (sampleRequest
        (onlyPanics (Hook.Action "Index") PanicVal.ErrStopRun))).escaped = none :=
  have h := stop_signal_skips_ServerError
    (sampleRequest (onlyPanics (Hook.Action "Index") PanicVal.ErrStopRun))
    (by decide) (by decide) (by decide) (by decide)
  have h2 := h.2.2.2.1 (by decide)
  ⟨by decide, h2.1, h2.2.1, h2.2.2 (by decide)⟩

/-- C4 fails: `Init` panics with "boom" (not `ErrStopRun`), `ServerError` is
never called and the panic leaves `Router`. -/
theorem Init_fault_not_recovered :
    reachesLifecycle (sampleRequest (onlyPanics Hook.Init (PanicVal.other "boom"))) ∧
    (sampleRequest (onlyPanics Hook.Init (PanicVal.other "boom"))).hook Hook.Init =
      Outcome.panics (PanicVal.other "boom") ∧
    timesCalled Hook.ServerError
      (Router (sampleRequest (onlyPanics Hook.Init (PanicVal.other "boom")))).trace = 0 ∧
    (Router (sampleRequest (onlyPanics Hook.Init (PanicVal.other "boom")))).escaped =
      some (PanicVal.other "boom") ∧
    ¬ (timesCalled Hook.ServerError
        (Router (sampleRequest (onlyPanics Hook.Init (PanicVal.other "boom")))).trace = 1 ∧
      (Router (sampleRequest (onlyPanics Hook.Init (PanicVal.other "boom")))).escaped =
        none) := by
  decide

/-- C4, amended: a request reaches the lifecycle and `Init` panics, with any
value.  Then `Init` is the only hook called (`ServerError` is not called), the
calls deferred before it still run, in the order slot release (when a slot was
acquired), cancel, pool put, `WgDone`, and the panic leaves `Router`. -/
theorem Init_panic_escapes (rq : Request) (hreach : reachesLifecycle rq) (v : PanicVal)
    (hInit : rq.hook Hook.Init = Outcome.panics v) :
    hookCalls (Router rq).trace = [(Hook.Init, rq.httpCtx)] ∧
    timesCalled Hook.ServerError (Router rq).trace = 0 ∧
    (Router rq).escaped = some v ∧
    (Router rq).trace =
      (if rq.debug then [Event.debugStart] else []) ++
        [Event.WgAdd, Event.poolGet rq.httpCtx, Event.ctxInit rq.httpCtx,
          Event.goCloseNotify rq.httpCtx] ++
        (if gated rq then [Event.chanSend] else []) ++
        [Event.call Hook.Init rq.httpCtx] ++
        (if gated rq then [Event.chanRecv] else []) ++
        [Event.cancel rq.httpCtx, Event.poolPut rq.httpCtx, Event.WgDone] ++
        (if rq.debug then [Event.debugEnd] else []) := by
  have hcore : lifecycle rq { trace := [], defers := [] } =
      { trace := [Event.call Hook.Init rq.httpCtx], escaped := some v } := by
    simp [lifecycle, callHook, unwind, runDefers, Frame.emit, hInit]
  refine ⟨?_, ?_, ?_, ?_⟩
  · rw [hookCalls_Router rq hreach, hcore]
    simp [hookCalls]
  · rw [timesCalled, hookCalls_Router rq hreach, hcore]
    simp [hookCalls]
  · rw [escaped_Router rq hreach, hcore]
  · rw [Router_of_reachesLifecycle rq hreach, hcore]
    simp [entryTrace, exitTrace]

/-- C4, amended, at a request whose `Init` panics with "boom" after a slot
was acquired. -/
theorem Init_panic_escapes_witness :
    reachesLifecycle (sampleRequest (onlyPanics Hook.Init (PanicVal.other "boom"))) ∧
    hookCalls (Router (sampleRequest (onlyPanics Hook.Init (PanicVal.other "boom")))).trace =
      [(Hook.Init, 7)] ∧
    (Router (sampleRequest (onlyPanics Hook.Init (PanicVal.other "boom")))).escaped =
      some (PanicVal.other "boom") ∧
    (Router (sampleRequest (onlyPanics Hook.Init (PanicVal.other "boom")))).trace =
      [Event.WgAdd, Event.poolGet 7, Event.ctxInit 7, Event.goCloseNotify 7, Event.chanSend,
        Event.call Hook.Init 7, Event.chanRecv, Event.cancel 7, Event.poolPut 7,
        Event.WgDone] :=
  have h := Init_panic_escapes (sampleRequest (onlyPanics Hook.Init (PanicVal.other "boom")))
    (by decide) (PanicVal.other "boom") (by decide)
  ⟨by decide, h.1, h.2.2.1, by decide⟩

/-- C5 fails: only `After` panics, with "boom"; `Init`, `Before` and the action
return, yet `ServerError` is called. -/
theorem After_fault_calls_ServerError :
    reachesLifecycle (sampleRequest (onlyPanics Hook.After (PanicVal.other "boom"))) ∧
    (sampleRequest (onlyPanics Hook.After (PanicVal.other "boom"))).hook Hook.Init =
      Outcome.returns ∧
    (sampleRequest (onlyPanics Hook.After (PanicVal.other "boom"))).hook Hook.Before =
      Outcome.returns ∧
    (sampleRequest (onlyPanics Hook.After (PanicVal.other "boom"))).hook
      (Hook.Action "Index") = Outcome.returns ∧
    (sampleRequest (onlyPanics Hook.After (PanicVal.other "boom"))).hook Hook.Finish =
      Outcome.returns ∧
    timesCalled Hook.ServerError
      (Router (sampleRequest (onlyPanics Hook.After (PanicVal.other "boom")))).trace = 1 := by
  decide

/-- C5, amended: for a request that reaches the lifecycle and every outcome of
every hook, `ServerError` is called at most once, and it is called exactly
when `Init` returns and the panic met by `recoverPanic` is not `ErrStopRun`:
`Before` panics with another value, or `Before` returns and either `After`
panics with another value or `After` returns and the action panics with
another value.  So it is never called when `Init` panics, nor when `Init`,
`Before`, the action and `After` all return, whatever `Finish` does. -/
theorem ServerError_at_most_once (rq : Request) (hreach : reachesLifecycle rq) :
    timesCalled Hook.ServerError (Router rq).trace ≤ 1 ∧
    (timesCalled Hook.ServerError (Router rq).trace = 1 ↔
      rq.hook Hook.Init = Outcome.returns ∧
      (isFault (rq.hook Hook.Before) = true ∨
        rq.hook Hook.Before = Outcome.returns ∧
          (isFault (rq.hook Hook.After) = true ∨
            rq.hook Hook.After = Outcome.returns ∧
              isFault (rq.hook (Hook.Action rq.action)) = true))) ∧
    ((∃ v, rq.hook Hook.Init = Outcome.panics v) →
      timesCalled Hook.ServerError (Router rq).trace = 0) ∧
    (rq.hook Hook.Init = Outcome.returns → rq.hook Hook.Before = Outcome.returns →
      rq.hook (Hook.Action rq.action) = Outcome.returns →
      rq.hook Hook.After = Outcome.returns →
      timesCalled Hook.ServerError (Router rq).trace = 0) := by
  simp only [timesCalled, hookCalls_Router rq hreach]
  rcases hI : rq.hook Hook.Init with _ | v <;>
    rcases hB : rq.hook Hook.Before with _ | (_ | b) <;>
    rcases hX : rq.hook (Hook.Action rq.action) with _ | (_ | x) <;>
    rcases hA : rq.hook Hook.After with _ | (_ | a) <;>
    simp [lifecycle, callHook, unwind, runDefers, runDeferred, recoverPanic, afterCall,
      Frame.emit, Frame.defer, hookCalls, isFault, hI, hB, hX, hA]

/-- C5, amended, at a request whose `Finish` alone panics: no `ServerError`. -/
theorem ServerError_at_most_once_witness :
    reachesLifecycle (sampleRequest (onlyPanics Hook.Finish (PanicVal.other "boom"))) ∧
    timesCalled Hook.ServerError
      (Router (sampleRequest (onlyPanics Hook.Finish (PanicVal.other "boom")))).trace = 0 :=
  have h := ServerError_at_most_once
    (sampleRequest (onlyPanics Hook.Finish (PanicVal.other "boom"))) (by decide)
  ⟨by decide, h.2.2.2 (by decide) (by decide) (by decide) (by decide)⟩

/-- C6 fails: only `Finish` panics, with "boom", and the panic leaves
`Router`. -/
theorem Finish_fault_escapes :
    reachesLifecycle (sampleRequest (onlyPanics Hook.Finish (PanicVal.other "boom"))) ∧
    (sampleRequest (onlyPanics Hook.Finish (PanicVal.other "boom"))).hook Hook.Finish =
      Outcome.panics (PanicVal.other "boom") ∧
    (Router (sampleRequest (onlyPanics Hook.Finish (PanicVal.other "boom")))).escaped =
      some (PanicVal.other "boom") ∧
    (Router (sampleRequest (onlyPanics Hook.Finish (PanicVal.other "boom")))).escaped ≠
      none := by
  decide

/-- C6, amended: for a request that reaches the lifecycle with `Init`
returning, a panic of `After` (reached when `Before` returns) with a value other
than `ErrStopRun` is recovered by `recoverPanic`: `ServerError` is called once
and `Router` returns normally when `ServerError` and `Finish` return; a panic
of `Finish` is not recovered and leaves `Router`. -/
theorem After_recovered_Finish_escapes (rq : Request) (hreach : reachesLifecycle rq)
    (hInit : rq.hook Hook.Init = Outcome.returns) :
    (rq.hook Hook.Before = Outcome.returns → isFault (rq.hook Hook.After) = true →
      timesCalled Hook.ServerError (Router rq).trace = 1 ∧
      (rq.hook Hook.ServerError = Outcome.returns → rq.hook Hook.Finish = Outcome.returns →
        (Router rq).escaped = none)) ∧
    (∀ v, rq.hook Hook.Finish = Outcome.panics v → (Router rq).escaped = some v) := by
  simp only [timesCalled, hookCalls_Router rq hreach, escaped_Router rq hreach]
  rcases hB : rq.hook Hook.Before with _ | (_ | b) <;>
    rcases hX : rq.hook (Hook.Action rq.action) with _ | (_ | x) <;>
    rcases hA : rq.hook Hook.After with _ | (_ | a) <;>
    rcases hS : rq.hook Hook.ServerError with _ | w <;>
    rcases hF : rq.hook Hook.Finish with _ | u <;>
    simp [lifecycle, callHook, unwind, runDefers, runDeferred, recoverPanic, afterCall,
      Frame.emit, Frame.defer, hookCalls, isFault, hInit, hB, hX, hA, hS, hF]

/-- C6, amended, at a request whose `After` alone panics with "boom". -/
theorem After_recovered_Finish_escapes_witness :
    reachesLifecycle (sampleRequest (onlyPanics Hook.After (PanicVal.other "boom"))) ∧
    timesCalled Hook.ServerError
      (Router (sampleRequest (onlyPanics Hook.After (PanicVal.other "boom")))).trace = 1 ∧
    (Router (sampleRequest (onlyPanics Hook.After (PanicVal.other "boom")))).escaped = none :=
  have h := After_recovered_Finish_escapes
    (sampleRequest (onlyPanics Hook.After (PanicVal.other "boom"))) (by decide) (by decide)
  have h2 := h.1 (by decide) (by decide)
  ⟨by decide, h2.1, h2.2 (by decide) (by decide)⟩

/-! ## Effects of the lifecycle and of the other paths -/

/-- The lifecycle itself performs hook calls and the fatal log only. -/
theorem lifecycle_events (rq : Request) :
    ∀ e ∈ (lifecycle rq { trace := [], defers := [] }).trace,
      e = Event.logFatal ∨ ∃ h, e = Event.call h rq.httpCtx := by
  rcases hI : rq.hook Hook.Init with _ | v <;>
    rcases hB : rq.hook Hook.Before with _ | (_ | b) <;>
    rcases hX : rq.hook (Hook.Action rq.action) with _ | (_ | x) <;>
    rcases hA : rq.hook Hook.After with _ | (_ | a) <;>
    simp [lifecycle, callHook, unwind, runDefers, runDeferred, recoverPanic, afterCall,
      Frame.emit, Frame.defer, hI, hB, hX, hA]

theorem filter_lifecycle (rq : Request) (p : Event → Bool) (hlog : p Event.logFatal = false)
    (hcall : ∀ h c, p (Event.call h c) = false) :
    (lifecycle rq { trace := [], defers := [] }).trace.filter p = [] := by
  rw [List.filter_eq_nil_iff]
  intro e he
  rcases lifecycle_events rq e he with h | ⟨h, rfl⟩
  · simp [h, hlog]
  · simp [hcall]

/-- The trace of a request that is delegated to the gRPC server. -/
theorem Router_grpc (rq : Request)
    (h : rq.protoMajor = 2 ∧ rq.contentTypeGrpc = true ∧ rq.grpcServer = true) :
    Router rq =
      { trace := (if rq.debug then [Event.debugStart] else []) ++
          [Event.WgAdd, Event.grpcServeHTTP, Event.WgDone] ++
          (if rq.debug then [Event.debugEnd] else [])
        escaped := afterCall rq.grpcServe none } := by
  cases hd : rq.debug <;>
    simp [Router, h, hd, unwind, runDefers, runDeferred, Frame.emit, Frame.defer]

/-- The trace of a request that meets empty route tables. -/
theorem Router_empty (rq : Request)
    (hg : ¬ (rq.protoMajor = 2 ∧ rq.contentTypeGrpc = true ∧ rq.grpcServer = true))
    (h : rq.routeMapLen = 0 ∧ rq.routeMapMethodLen = 0) :
    Router rq =
      { trace := (if rq.debug then [Event.debugStart] else []) ++
          [Event.WgAdd, Event.WgDone] ++ (if rq.debug then [Event.debugEnd] else [])
        escaped := some (PanicVal.other "nil router map") } := by
  cases hd : rq.debug <;>
    simp [Router, hg, h, hd, unwind, runDefers, runDeferred, Frame.emit, Frame.defer]

/-- The trace of a request whose admission fails with error `err`. -/
theorem Router_rejected (rq : Request) (hadm : reachesAdmission rq) (hgate : gated rq)
    (err : String) (herr : (holdConcurrenceChan rq.httpCtx rq.sel).2 = some err) :
    Router rq =
      { trace := (if rq.debug then [Event.debugStart] else []) ++
          [Event.WgAdd, Event.poolGet rq.httpCtx, Event.ctxInit rq.httpCtx,
            Event.goCloseNotify rq.httpCtx] ++
          (holdConcurrenceChan rq.httpCtx rq.sel).1 ++
          [Event.logWarn err, Event.cancel rq.httpCtx, Event.poolPut rq.httpCtx,
            Event.WgDone] ++
          (if rq.debug then [Event.debugEnd] else [])
        escaped := none } := by
  obtain ⟨hg, hr⟩ := hadm
  obtain ⟨ht, hc⟩ := hgate
  rcases hh : holdConcurrenceChan rq.httpCtx rq.sel with ⟨evs, e⟩
  rw [hh] at herr
  simp only at herr
  subst herr
  cases hd : rq.debug <;>
    simp [Router, gateThenLifecycle, hg, hr, hd, ht, hc, hh, unwind, runDefers, runDeferred,
      Frame.emit, Frame.defer]

/-- A failed admission performs no channel effect and calls no hook. -/
theorem holdConcurrenceChan_rejected (c : Ctx) (sel : SelectCase) (hsel : sel ≠ SelectCase.send) :
    (∃ err, (holdConcurrenceChan c sel).2 = some err) ∧
    gateEvents (holdConcurrenceChan c sel).1 = [] ∧
    wgEvents (holdConcurrenceChan c sel).1 = [] ∧
    hookCalls (holdConcurrenceChan c sel).1 = [] := by
  rcases sel with _ | _ | (_ | m | _) | _ <;>
    simp [holdConcurrenceChan, gateEvents, wgEvents, hookCalls] at hsel ⊢

/-! ## Channel and wait-group effects of `Router` -/

theorem gateEvents_append (a b : List Event) :
    gateEvents (a ++ b) = gateEvents a ++ gateEvents b := by
  simp [gateEvents]

theorem wgEvents_append (a b : List Event) :
    wgEvents (a ++ b) = wgEvents a ++ wgEvents b := by
  simp [wgEvents]

/-- Every path through `Router`: delegation, empty tables, failed admission,
or the lifecycle. -/
theorem Router_paths (rq : Request) :
    (rq.protoMajor = 2 ∧ rq.contentTypeGrpc = true ∧ rq.grpcServer = true) ∨
    (¬ (rq.protoMajor = 2 ∧ rq.contentTypeGrpc = true ∧ rq.grpcServer = true) ∧
      rq.routeMapLen = 0 ∧ rq.routeMapMethodLen = 0) ∨
    (reachesAdmission rq ∧ gated rq ∧ rq.sel ≠ SelectCase.send) ∨
    reachesLifecycle rq := by
  unfold reachesLifecycle reachesAdmission
  by_cases hg : rq.protoMajor = 2 ∧ rq.contentTypeGrpc = true ∧ rq.grpcServer = true
  · exact Or.inl hg
  · by_cases he : rq.routeMapLen = 0 ∧ rq.routeMapMethodLen = 0
    · exact Or.inr (Or.inl ⟨hg, he⟩)
    · by_cases hs : gated rq → rq.sel = SelectCase.send
      · exact Or.inr (Or.inr (Or.inr ⟨⟨hg, he⟩, hs⟩))
      · rw [Classical.not_imp] at hs
        exact Or.inr (Or.inr (Or.inl ⟨⟨hg, he⟩, hs⟩))

/-- The channel effects of `Router`: one send followed by one receive when a
slot is acquired, none otherwise. -/
theorem gateEvents_Router (rq : Request) :
    gateEvents (Router rq).trace =
      if acquired rq then [Event.chanSend, Event.chanRecv] else [] := by
  rcases Router_paths rq with hg | ⟨hg, he⟩ | ⟨hadm, hgate, hsel⟩ | hlife
  · have hna : ¬ acquired rq := fun h => h.1.1 hg
    rw [Router_grpc rq hg, if_neg hna]
    cases rq.debug <;> simp [gateEvents]
  · have hna : ¬ acquired rq := fun h => h.1.2 he
    rw [Router_empty rq hg he, if_neg hna]
    cases rq.debug <;> simp [gateEvents]
  · have hna : ¬ acquired rq := fun h => hsel h.2.2
    obtain ⟨⟨err, herr⟩, hge, -, -⟩ := holdConcurrenceChan_rejected rq.httpCtx rq.sel hsel
    rw [Router_rejected rq hadm hgate err herr, if_neg hna]
    simp only [gateEvents_append, hge]
    cases rq.debug <;> simp [gateEvents]
  · rw [Router_of_reachesLifecycle rq hlife]
    have hcore : gateEvents (lifecycle rq { trace := [], defers := [] }).trace = [] :=
      filter_lifecycle rq _ (by simp) (by simp)
    simp only [gateEvents_append, hcore]
    by_cases hgate : gated rq
    · have ha : acquired rq := ⟨hlife.1, hgate, hlife.2 hgate⟩
      rw [if_pos ha]
      cases hd : rq.debug <;> simp [gateEvents, entryTrace, exitTrace, hgate, hd]
    · have hna : ¬ acquired rq := fun h => hgate h.2.1
      rw [if_neg hna]
      cases hd : rq.debug <;> simp [gateEvents, entryTrace, exitTrace, hgate, hd]

/-- The wait-group effects of `Router`: `WgAdd` then `WgDone`, on every path. -/
theorem wgEvents_Router (rq : Request) :
    wgEvents (Router rq).trace = [Event.WgAdd, Event.WgDone] := by
  rcases Router_paths rq with hg | ⟨hg, he⟩ | ⟨hadm, hgate, hsel⟩ | hlife
  · rw [Router_grpc rq hg]
    cases rq.debug <;> simp [wgEvents]
  · rw [Router_empty rq hg he]
    cases rq.debug <;> simp [wgEvents]
  · obtain ⟨⟨err, herr⟩, -, hwe, -⟩ := holdConcurrenceChan_rejected rq.httpCtx rq.sel hsel
    rw [Router_rejected rq hadm hgate err herr]
    simp only [wgEvents_append, hwe]
    cases rq.debug <;> simp [wgEvents]
  · rw [Router_of_reachesLifecycle rq hlife]
    have hcore : wgEvents (lifecycle rq { trace := [], defers := [] }).trace = [] :=
      filter_lifecycle rq _ (by simp) (by simp)
    simp only [wgEvents_append, hcore]
    by_cases hgate : gated rq <;> cases hd : rq.debug <;>
      simp [wgEvents, entryTrace, exitTrace, hgate, hd]

theorem chanAfter_gateEvents (cap : Nat) (tr : List Event) (len : Nat) :
    chanAfter cap tr len = chanAfter cap (gateEvents tr) len := by
  induction tr generalizing len with
  | nil => rfl
  | cons e tr ih =>
    cases e <;> simp [chanAfter, gateEvents, chanStep, ih]

theorem pendingAfter_wgEvents (tr : List Event) (n : Int) :
    pendingAfter tr n = pendingAfter (wgEvents tr) n := by
  induction tr generalizing n with
  | nil => rfl
  | cons e tr ih =>
    cases e <;> simp [pendingAfter, wgEvents, pendingStep] <;>
      simpa [pendingAfter, wgEvents] using ih _

/-! ## Gate, admission failure and pending counter -/

/-- C7: when admission acquires a slot, `Router` performs exactly one send and
then exactly one receive on `concurrenceChan`, whatever the hooks do, so a
channel holding `len < cap` values holds `len` values again afterwards; a
request that skips admission, fails it or never reaches it performs no channel
operation at all. -/
theorem gate_slot_released (rq : Request) :
    (acquired rq →
      gateEvents (Router rq).trace = [Event.chanSend, Event.chanRecv] ∧
      (Router rq).trace.count Event.chanSend = 1 ∧
      (Router rq).trace.count Event.chanRecv = 1 ∧
      ∀ cap len, len < cap → chanAfter cap (Router rq).trace len = some len) ∧
    (¬ acquired rq →
      (Router rq).trace.count Event.chanSend = 0 ∧
      (Router rq).trace.count Event.chanRecv = 0 ∧
      ∀ cap len, chanAfter cap (Router rq).trace len = some len) := by
  have hs : (Router rq).trace.count Event.chanSend =
      (gateEvents (Router rq).trace).count Event.chanSend := by
    simp [gateEvents, List.count_filter]
  have hr : (Router rq).trace.count Event.chanRecv =
      (gateEvents (Router rq).trace).count Event.chanRecv := by
    simp [gateEvents, List.count_filter]
  constructor
  · intro ha
    have hge := gateEvents_Router rq
    rw [if_pos ha] at hge
    refine ⟨hge, by rw [hs, hge]; decide, by rw [hr, hge]; decide, ?_⟩
    intro cap len hlen
    rw [chanAfter_gateEvents, hge]
    simp [chanAfter, chanStep, hlen]
  · intro hna
    have hge := gateEvents_Router rq
    rw [if_neg hna] at hge
    refine ⟨by rw [hs, hge]; rfl, by rw [hr, hge]; rfl, ?_⟩
    intro cap len
    rw [chanAfter_gateEvents, hge]
    rfl

/-- C7 at a request that acquires a slot and whose action then panics: with
one slot of two taken before, one slot is taken afterwards. -/
theorem gate_slot_released_witness :
    acquired (sampleRequest (onlyPanics (Hook.Action "Index") (PanicVal.other "boom"))) ∧
    gateEvents (Router (sampleRequest
        (onlyPanics (Hook.Action "Index") (PanicVal.other "boom")))).trace =
      [Event.chanSend, Event.chanRecv] ∧
    chanAfter 2 (Router (sampleRequest
        (onlyPanics (Hook.Action "Index") (PanicVal.other "boom")))).trace 1 = some 1 :=
  have h := (gate_slot_released
    (sampleRequest (onlyPanics (Hook.Action "Index") (PanicVal.other "boom")))).1 (by decide)
  ⟨by decide, h.1, h.2.2.2 2 1 (by decide)⟩

/-- C8: admission is attempted and fails (the `select` fires a case other than
the send).  Then `holdConcurrenceChan` returns an error, no hook is called,
the `HTTPContext` taken from the pool is put back once, and `Router` returns
normally. -/
theorem admission_failure_skips_hooks (rq : Request) (hadm : reachesAdmission rq)
    (hgate : gated rq) (hsel : rq.sel ≠ SelectCase.send) :
    (∃ err, (holdConcurrenceChan rq.httpCtx rq.sel).2 = some err ∧
      (Router rq).trace =
        (if rq.debug then [Event.debugStart] else []) ++
          [Event.WgAdd, Event.poolGet rq.httpCtx, Event.ctxInit rq.httpCtx,
            Event.goCloseNotify rq.httpCtx] ++
          (holdConcurrenceChan rq.httpCtx rq.sel).1 ++
          [Event.logWarn err, Event.cancel rq.httpCtx, Event.poolPut rq.httpCtx,
            Event.WgDone] ++
          (if rq.debug then [Event.debugEnd] else [])) ∧
    hookCalls (Router rq).trace = [] ∧
    (∀ h, timesCalled h (Router rq).trace = 0) ∧
    (Router rq).trace.count (Event.poolPut rq.httpCtx) = 1 ∧
    (Router rq).escaped = none := by
  obtain ⟨⟨err, herr⟩, -, -, hhc⟩ := holdConcurrenceChan_rejected rq.httpCtx rq.sel hsel
  have hR := Router_rejected rq hadm hgate err herr
  have hcalls : hookCalls (Router rq).trace = [] := by
    rw [hR]
    simp only [hookCalls_append, hhc]
    cases rq.debug <;> simp [hookCalls]
  have hput : (Router rq).trace.count (Event.poolPut rq.httpCtx) = 1 := by
    rw [hR]
    rcases hsl : rq.sel with _ | _ | (_ | m | _) | _ <;> cases rq.debug <;>
      simp [hsl, holdConcurrenceChan] at hsel ⊢
  refine ⟨⟨err, herr, by rw [hR]⟩, hcalls, ?_, hput, by rw [hR]⟩
  intro h
  simp [timesCalled, hcalls]

/-- C8 at a request that times out at the gate and has its connection
hijacked and closed. -/
theorem admission_failure_skips_hooks_witness :
    reachesAdmission { sampleRequest allReturn with sel := SelectCase.timeout Hijack.hijacked } ∧
    gated { sampleRequest allReturn with sel := SelectCase.timeout Hijack.hijacked } ∧
    hookCalls (Router
      { sampleRequest allReturn with sel := SelectCase.timeout Hijack.hijacked }).trace = [] ∧
    (Router { sampleRequest allReturn with sel := SelectCase.timeout Hijack.hijacked
      }).trace.count (Event.poolPut 7) = 1 :=
  have h := admission_failure_skips_hooks
    { sampleRequest allReturn with sel := SelectCase.timeout Hijack.hijacked }
    (by decide) (by decide) (by decide)
  ⟨by decide, by decide, h.2.1, h.2.2.2.1⟩

/-- C9: on every path through `Router` (gRPC delegation, empty route tables,
failed admission, the lifecycle with any hook outcomes, a panic leaving
`Router`) the wait-group effects are exactly one `WgAdd` followed by one
`WgDone`, so the pending-request counter ends at the value it started from. -/
theorem pending_counter_restored (rq : Request) :
    wgEvents (Router rq).trace = [Event.WgAdd, Event.WgDone] ∧
    (Router rq).trace.count Event.WgAdd = 1 ∧
    (Router rq).trace.count Event.WgDone = 1 ∧
    ∀ n, pendingAfter (Router rq).trace n = n := by
  have hw := wgEvents_Router rq
  have ha : (Router rq).trace.count Event.WgAdd =
      (wgEvents (Router rq).trace).count Event.WgAdd := by
    simp [wgEvents, List.count_filter]
  have hd : (Router rq).trace.count Event.WgDone =
      (wgEvents (Router rq).trace).count Event.WgDone := by
    simp [wgEvents, List.count_filter]
  refine ⟨hw, by rw [ha, hw]; decide, by rw [hd, hw]; decide, ?_⟩
  intro n
  rw [pendingAfter_wgEvents, hw]
  simp [pendingAfter, pendingStep]

/-! ## Interleavings and the gate -/

theorem phaseAfter_append (p : Phase) (a b : List Event) :
    phaseAfter p (a ++ b) = (phaseAfter p a).bind fun q => phaseAfter q b := by
  induction a generalizing p with
  | nil => simp [phaseAfter]
  | cons e a ih =>
    simp only [List.cons_append, phaseAfter]
    cases phaseStep p e with
    | none => simp
    | some q => simp [ih]

theorem phaseAfter_hooks (l : List Event)
    (hl : ∀ e ∈ l, e = Event.logFatal ∨ ∃ h c, e = Event.call h c) :
    phaseAfter Phase.inside l = some Phase.inside := by
  induction l with
  | nil => rfl
  | cons e l ih =>
    have ih2 := ih fun x hx => hl x (List.mem_cons_of_mem e hx)
    rcases hl e (List.mem_cons_self e l) with h | ⟨h, c, rfl⟩
    · subst h
      simp [phaseAfter, phaseStep, ih2]
    · simp [phaseAfter, phaseStep, ih2]

/-- With the gate in force, `Router` sends before its first hook call and
receives after its last one, once each at most. -/
theorem Router_wellGated (rq : Request) (hgate : gated rq) :
    (phaseAfter Phase.before (Router rq).trace).isSome = true := by
  rcases Router_paths rq with hg | ⟨hg, he⟩ | ⟨hadm, -, hsel⟩ | hlife
  · rw [Router_grpc rq hg]
    cases rq.debug <;> simp [phaseAfter, phaseStep]
  · rw [Router_empty rq hg he]
    cases rq.debug <;> simp [phaseAfter, phaseStep]
  · obtain ⟨⟨err, herr⟩, -, -, -⟩ := holdConcurrenceChan_rejected rq.httpCtx rq.sel hsel
    rw [Router_rejected rq hadm hgate err herr]
    rcases hsl : rq.sel with _ | _ | (_ | m | _) | _ <;> cases rq.debug <;>
      simp [hsl, holdConcurrenceChan, phaseAfter, phaseStep] at hsel ⊢
  · rw [Router_of_reachesLifecycle rq hlife]
    have hcore := phaseAfter_hooks _ fun e he =>
      (lifecycle_events rq e he).imp id fun ⟨h, hh⟩ => ⟨h, rq.httpCtx, hh⟩
    have hentry : phaseAfter Phase.before (entryTrace rq) = some Phase.inside := by
      cases hd : rq.debug <;> simp [entryTrace, hgate, hd, phaseAfter, phaseStep]
    have hexit : (phaseAfter Phase.inside (exitTrace rq)).isSome = true := by
      cases hd : rq.debug <;> simp [exitTrace, hgate, hd, phaseAfter, phaseStep]
    simp [phaseAfter_append, hentry, hcore, hexit]

/-- What the phase reached says about the channel operations performed. -/
theorem phaseAfter_mem (l : List Event) (p0 ph : Phase) (h : phaseAfter p0 l = some ph) :
    (Event.chanSend ∈ l ↔ p0 = Phase.before ∧ ph ≠ Phase.before) ∧
    (Event.chanRecv ∈ l ↔ p0 ≠ Phase.after ∧ ph = Phase.after) ∧
    (p0 = Phase.inside → ph ≠ Phase.before) ∧ (p0 = Phase.after → ph = Phase.after) := by
  induction l generalizing p0 with
  | nil =>
    simp only [phaseAfter, Option.some.injEq] at h
    subst h
    cases p0 <;> simp
  | cons e l ih =>
    simp only [phaseAfter, Option.bind_eq_some] at h
    obtain ⟨q, hq, hrest⟩ := h
    have hi := ih q hrest
    cases e <;> cases p0 <;> simp [phaseStep] at hq <;> subst hq <;> cases ph <;> simp_all

/-- An execution that keeps its effects in place holds a slot exactly when it
has sent and not yet received. -/
theorem inFlight_eq_holdsSlot (t : Task)
    (hw : (phaseAfter Phase.before (t.done ++ t.todo)).isSome = true) :
    inFlight t = holdsSlot t := by
  rw [phaseAfter_append] at hw
  cases hp : phaseAfter Phase.before t.done with
  | none => simp [hp] at hw
  | some p =>
    obtain ⟨hs, hr, -, -⟩ := phaseAfter_mem _ _ _ hp
    have h1 : inFlight t = true ↔ holdsSlot t = true := by
      simp only [inFlight, holdsSlot, taskPhase, hp, Bool.and_eq_true, decide_eq_true_eq,
        Bool.not_eq_true', decide_eq_false_iff_not, hs, hr, Option.some.injEq]
      cases p <;> simp
    cases hi : inFlight t <;> cases hh : holdsSlot t <;> simp_all

/-- Replacing one element of a list moves the count of a predicate by that
element alone. -/
theorem countP_set_add {α : Type} (p : α → Bool) (l : List α) (i : Nat) (a b : α)
    (h : l[i]? = some a) :
    (l.set i b).countP p + (if p a = true then 1 else 0) =
      l.countP p + (if p b = true then 1 else 0) := by
  obtain ⟨hi, hget⟩ := List.getElem?_eq_some.mp h
  have hbound : (if p a = true then 1 else 0) ≤ l.countP p := by
    by_cases hpa : p a = true
    · rw [if_pos hpa]
      exact List.countP_pos_iff.mpr ⟨a, List.getElem?_mem h, hpa⟩
    · rw [if_neg hpa]
      exact Nat.zero_le _
  rw [List.countP_set p l i b hi, hget]
  omega

theorem stepTask_eq_some {cap : Nat} {s s1 : System} {i : Nat}
    (h : stepTask cap s i = some s1) :
    ∃ t e rest len, s.tasks[i]? = some t ∧ t.todo = e :: rest ∧
      chanStep cap s.chanLen e = some len ∧
      s1 = { chanLen := len
             tasks := s.tasks.set i { done := t.done ++ [e], todo := rest } } := by
  unfold stepTask at h
  split at h
  · simp at h
  · rename_i t ht
    split at h
    · simp at h
    · rename_i e rest hto
      split at h
      · simp at h
      · rename_i len hl
        exact ⟨t, e, rest, len, ht, hto, hl, by simpa using h.symm⟩

/-- One step of one execution that keeps its effects in place. -/
theorem task_step (t : Task) (e : Event) (rest : List Event) (hto : t.todo = e :: rest)
    (hw : (phaseAfter Phase.before (t.done ++ t.todo)).isSome = true) :
    ∃ p q, taskPhase t = some p ∧ phaseStep p e = some q ∧
      taskPhase { done := t.done ++ [e], todo := rest } = some q ∧
      (phaseAfter Phase.before ((t.done ++ [e]) ++ rest)).isSome = true := by
  have hw2 : (phaseAfter Phase.before ((t.done ++ [e]) ++ rest)).isSome = true := by
    simpa [hto] using hw
  rw [hto, phaseAfter_append] at hw
  cases hp : phaseAfter Phase.before t.done with
  | none => simp [hp] at hw
  | some p =>
    cases hq : phaseStep p e with
    | none => simp [hp, phaseAfter, hq] at hw
    | some q =>
      refine ⟨p, q, hp, hq, ?_, hw2⟩
      simp [taskPhase, phaseAfter_append, hp, phaseAfter, hq]

/-- A step keeps the invariant. -/
theorem GateInv_step {cap : Nat} {s s1 : System} {i : Nat} (hinv : GateInv cap s)
    (h : stepTask cap s i = some s1) : GateInv cap s1 := by
  obtain ⟨t, e, rest, len, ht, hto, hl, rfl⟩ := stepTask_eq_some h
  have hmem : t ∈ s.tasks := List.getElem?_mem ht
  obtain ⟨p, q, hp, hq, hp1, hw1⟩ := task_step t e rest hto (hinv.wellGated t hmem)
  have hcount := countP_set_add holdsSlot s.tasks i t
    { done := t.done ++ [e], todo := rest } ht
  have hlen := hinv.len_eq
  have hle := hinv.len_le
  simp only [holdsSlot, hp, hp1, Option.some.injEq, decide_eq_true_eq] at hcount
  refine ⟨?_, ?_, ?_⟩
  · intro x hx
    rcases List.mem_or_eq_of_mem_set hx with hx | rfl
    · exact hinv.wellGated x hx
    · exact hw1
  · show len = List.countP holdsSlot (s.tasks.set i { done := t.done ++ [e], todo := rest })
    cases e <;> cases p <;> simp [phaseStep] at hq <;> subst hq <;>
      simp [chanStep] at hl <;> simp at hcount <;> omega
  · show len ≤ cap
    cases e <;> simp [chanStep] at hl <;> omega

theorem GateInv_run {cap : Nat} (sched : List Nat) {s s1 : System} (hinv : GateInv cap s)
    (h : runSchedule cap s sched = some s1) : GateInv cap s1 := by
  induction sched generalizing s with
  | nil =>
    simp only [runSchedule, Option.some.injEq] at h
    exact h ▸ hinv
  | cons i is ih =>
    simp only [runSchedule, Option.bind_eq_some] at h
    obtain ⟨s2, h2, hrest⟩ := h
    exact ih (GateInv_step hinv h2) hrest

theorem GateInv_start (cap : Nat) (rqs : List Request) (hg : ∀ rq ∈ rqs, gated rq) :
    GateInv cap (startSystem rqs) := by
  refine ⟨?_, ?_, Nat.zero_le _⟩
  · intro t ht
    simp only [startSystem, List.mem_map] at ht
    obtain ⟨rq, hrq, rfl⟩ := ht
    simpa using Router_wellGated rq (hg rq hrq)
  · show 0 = List.countP holdsSlot
      (rqs.map fun rq => { done := [], todo := (Router rq).trace })
    symm
    rw [List.countP_eq_zero]
    intro t ht
    simp only [startSystem, List.mem_map] at ht
    obtain ⟨rq, -, rfl⟩ := ht
    simp [holdsSlot, taskPhase, phaseAfter]

/-- C10: the concurrency limit is `N > 0`, test mode is off, and
`concurrenceChan` has capacity `N`.  In every system reached by an
interleaving of `Router` executions, at most `N` executions are between their
successful admission and their slot release; every execution about to call a
hook is one of them; the channel holds one value per such execution; and an
unfinished execution is unable to step exactly when it waits at the gate
while `N` executions are in flight, so it proceeds once one of them releases
its slot. -/
theorem gate_bounds_in_flight (N : Nat) (hN : 0 < N) (rqs : List Request)
    (hcfg : ∀ rq ∈ rqs, rq.isGoTest = false ∧ rq.concurrence = N) (sched : List Nat)
    (s : System) (hrun : runSchedule N (startSystem rqs) sched = some s) :
    s.tasks.countP inFlight ≤ N ∧
    s.tasks.countP atHook ≤ s.tasks.countP inFlight ∧
    s.chanLen = s.tasks.countP inFlight ∧
    ∀ i t, s.tasks[i]? = some t → t.todo ≠ [] →
      (stepTask N s i = none ↔ atGate t = true ∧ s.tasks.countP inFlight = N) := by
  have hinv : GateInv N s :=
    GateInv_run sched (GateInv_start N rqs fun rq hrq => ⟨(hcfg rq hrq).1, by
      rw [(hcfg rq hrq).2]; exact hN⟩) hrun
  have hcongr : s.tasks.countP inFlight = s.tasks.countP holdsSlot :=
    List.countP_congr fun t ht => by rw [inFlight_eq_holdsSlot t (hinv.wellGated t ht)]
  have hlen := hinv.len_eq
  have hle := hinv.len_le
  refine ⟨by omega, ?_, by omega, ?_⟩
  · rw [hcongr]
    apply List.countP_mono_left
    intro t ht hat
    cases hto : t.todo with
    | nil => simp [atHook, hto] at hat
    | cons e rest =>
      obtain ⟨p, q, hp, hq, -, -⟩ := task_step t e rest hto (hinv.wellGated t ht)
      cases e <;> simp [atHook, hto] at hat
      cases p <;> simp [phaseStep] at hq
      simp [holdsSlot, hp]
  · intro i t ht hne
    cases hto : t.todo with
    | nil => exact absurd hto hne
    | cons e rest =>
      have hmem : t ∈ s.tasks := List.getElem?_mem ht
      obtain ⟨p, q, hp, hq, -, -⟩ := task_step t e rest hto (hinv.wellGated t hmem)
      have hstep : stepTask N s i = none ↔ chanStep N s.chanLen e = none := by
        simp only [stepTask, ht, hto]
        cases chanStep N s.chanLen e <;> simp
      rw [hstep]
      cases e <;> simp [chanStep, atGate, hto]
      · omega
      · cases p <;> simp [phaseStep] at hq
        have hpos : 0 < s.tasks.countP holdsSlot :=
          List.countP_pos_iff.mpr ⟨t, hmem, by simp [holdsSlot, hp]⟩
        omega

/-- C10 at two requests and a gate of size 1: once the first request has
acquired the slot, the second, arrived at the gate, cannot step. -/
theorem gate_bounds_in_flight_witness :
    runSchedule 1 (startSystem twoRequests) gateSchedule = some gateState ∧
    gateState.tasks.countP inFlight ≤ 1 ∧
    gateState.tasks.countP inFlight = 1 ∧
    stepTask 1 gateState 1 = none :=
  have hrun : runSchedule 1 (startSystem twoRequests) gateSchedule = some gateState := by
    decide
  have h := gate_bounds_in_flight 1 (by decide) twoRequests (by decide) gateSchedule
    gateState hrun
  ⟨hrun, h.1, by decide, by decide⟩

/-! ## Maps -/

theorem mapGet_mapSet {V : Type} (m : Map V) (k : Str) (v : V) (key : Str) :
    mapGet (mapSet m k v) key = if k = key then some v else mapGet m key := by
  induction m with
  | nil => simp [mapSet, mapGet]
  | cons p m ih =>
    obtain ⟨k1, v1⟩ := p
    by_cases h1 : k1 = k
    · subst h1
      by_cases h2 : k1 = key <;> simp [mapSet, mapGet, h2]
    · by_cases h2 : k1 = key
      · subst h2
        have h3 : ¬ k = k1 := fun h => h1 h.symm
        simp [mapSet, mapGet, h1, h3]
      · simp [mapSet, mapGet, h1, h2, ih]

/-! ## Strings -/

theorem dropWhile_keep (cut : Char) (a r : Str) (ha : a ≠ []) (hfa : cut ∉ a) :
    ((a ++ r).dropWhile fun c => c == cut) = a ++ r := by
  cases a with
  | nil => exact absurd rfl ha
  | cons x a =>
    have hx : (x == cut) = false := by
      simpa using fun h : x = cut => hfa (h ▸ List.mem_cons_self x a)
    simp [List.dropWhile, hx]

/-- Trimming keeps a string that begins and ends with a piece free of the
trimmed character. -/
theorem Trim_keep (cut : Char) (s a r r2 c : Str) (hs1 : s = a ++ r) (hs2 : s = r2 ++ c)
    (ha : a ≠ []) (hc : c ≠ []) (hfa : cut ∉ a) (hfc : cut ∉ c) : Trim cut s = s := by
  unfold Trim
  have h1 : (s.dropWhile fun c => c == cut) = s := by
    rw [hs1]
    exact dropWhile_keep cut a r ha hfa
  rw [h1]
  have h2 : (s.reverse.dropWhile fun c => c == cut) = s.reverse := by
    rw [hs2, List.reverse_append]
    exact dropWhile_keep cut c.reverse r2.reverse (by simpa using hc) (by simpa using hfc)
  rw [h2, List.reverse_reverse]

theorem Trim_cons_cut (cut : Char) (s : Str) : Trim cut (cut :: s) = Trim cut s := by
  simp [Trim, List.dropWhile]

theorem Trim_nil (cut : Char) : Trim cut [] = [] := by
  simp [Trim]

theorem cutAt_absent (sep : Char) (a : Str) (ha : sep ∉ a) : cutAt sep a = none := by
  induction a with
  | nil => rfl
  | cons x a ih =>
    have hx : x ≠ sep := fun h => ha (h ▸ List.mem_cons_self x a)
    have ih2 := ih fun h => ha (List.mem_cons_of_mem x h)
    simp [cutAt, hx, ih2]

theorem cutAt_append (sep : Char) (a r : Str) (ha : sep ∉ a) :
    cutAt sep (a ++ sep :: r) = some (a, r) := by
  induction a with
  | nil => simp [cutAt]
  | cons x a ih =>
    have hx : x ≠ sep := fun h => ha (h ▸ List.mem_cons_self x a)
    have ih2 := ih fun h => ha (List.mem_cons_of_mem x h)
    simp [cutAt, hx, ih2]

theorem ToLower_append (lower : Char → Char) (a b : Str) :
    ToLower lower (a ++ b) = ToLower lower a ++ ToLower lower b := by
  simp [ToLower]

theorem ToLower_cons (lower : Char → Char) (c : Char) (a : Str) :
    ToLower lower (c :: a) = lower c :: ToLower lower a := by
  simp [ToLower]

/-! ## `formatURL` -/

/-- C15: with `unicode.ToLower` fixing `/`, for all defaults and all non-empty
lower-case strings `a`, `b`, `c` without `/`:
`formatURL("/")` is the two defaults and an empty remainder,
`formatURL("/a")` is `a`, the default action and an empty remainder,
`formatURL("/a/b")` is `a`, `b` and an empty remainder,
`formatURL("/a/b/c")` is `a`, `b`, `c`. -/
theorem formatURL_segments (cfg : RouteConfig) (lower : Char → Char)
    (hslash : lower '/' = '/') (a b c : Str) (ha : a ≠ []) (hb : b ≠ []) (hc : c ≠ [])
    (hla : ToLower lower a = a) (hlb : ToLower lower b = b) (hlc : ToLower lower c = c)
    (hfa : '/' ∉ a) (hfb : '/' ∉ b) (hfc : '/' ∉ c) :
    formatURL cfg lower ['/'] = some (cfg.DefaultController, cfg.DefaultAction, []) ∧
    formatURL cfg lower ('/' :: a) = some (a, cfg.DefaultAction, []) ∧
    formatURL cfg lower ('/' :: a ++ '/' :: b) = some (a, b, []) ∧
    formatURL cfg lower ('/' :: a ++ '/' :: b ++ '/' :: c) = some (a, b, c) := by
  refine ⟨?_, ?_, ?_, ?_⟩
  · have ht : Trim '/' (ToLower lower ['/']) = [] := by
      simp [ToLower, hslash, Trim_cons_cut, Trim_nil]
    unfold formatURL
    simp only [ht]
    simp [SplitN, cutAt]
  · have ht : Trim '/' (ToLower lower ('/' :: a)) = a := by
      rw [ToLower_cons, hslash, hla, Trim_cons_cut]
      exact Trim_keep '/' a a [] [] a (by simp) (by simp) ha ha hfa hfa
    unfold formatURL
    simp only [ht]
    simp [SplitN, cutAt_absent '/' a hfa, ha]
  · have ht : Trim '/' (ToLower lower ('/' :: a ++ '/' :: b)) = a ++ '/' :: b := by
      rw [List.cons_append, ToLower_cons, ToLower_append, ToLower_cons, hslash, hla, hlb,
        Trim_cons_cut]
      exact Trim_keep '/' _ a ('/' :: b) (a ++ ['/']) b rfl (by simp) ha hb hfa hfb
    unfold formatURL
    simp only [ht]
    simp [SplitN, cutAt_append '/' a b hfa, cutAt_absent '/' b hfb, ha, hb]
  · have ht : Trim '/' (ToLower lower ('/' :: a ++ '/' :: b ++ '/' :: c)) =
        a ++ '/' :: (b ++ '/' :: c) := by
      simp only [List.cons_append, List.append_assoc, ToLower_cons, ToLower_append, hslash,
        hla, hlb, hlc, Trim_cons_cut]
      exact Trim_keep '/' _ a ('/' :: (b ++ '/' :: c)) (a ++ '/' :: b ++ ['/']) c rfl
        (by simp) ha hc hfa hfc
    unfold formatURL
    simp only [ht]
    simp [SplitN, cutAt_append '/' a (b ++ '/' :: c) hfa, cutAt_append '/' b c hfb, ha, hb]

/-- C15 at `a = foo`, `b = bar`, `c = baz` with the defaults `index`. -/
theorem formatURL_segments_witness :
    formatURL sampleConfig asciiLower "/".toList =
      some ("index".toList, "index".toList, []) ∧
    formatURL sampleConfig asciiLower "/foo".toList =
      some ("foo".toList, "index".toList, []) ∧
    formatURL sampleConfig asciiLower "/foo/bar".toList =
      some ("foo".toList, "bar".toList, []) ∧
    formatURL sampleConfig asciiLower "/foo/bar/baz".toList =
      some ("foo".toList, "bar".toList, "baz".toList) :=
  formatURL_segments sampleConfig asciiLower (by decide) "foo".toList "bar".toList
    "baz".toList (by decide) (by decide) (by decide) (by decide) (by decide) (by decide)
    (by decide) (by decide) (by decide)

theorem cutAt_some (sep : Char) (s a b : Str) (h : cutAt sep s = some (a, b)) :
    s = a ++ sep :: b ∧ sep ∉ a := by
  induction s generalizing a with
  | nil => simp [cutAt] at h
  | cons x s ih =>
    by_cases hx : x = sep
    · simp only [cutAt, hx, if_true, Option.some.injEq, Prod.mk.injEq] at h
      obtain ⟨rfl, rfl⟩ := h
      simp [hx]
    · simp only [cutAt, hx, if_false] at h
      cases hc : cutAt sep s with
      | none => simp [hc] at h
      | some p =>
        obtain ⟨a1, b1⟩ := p
        simp only [hc, Option.some.injEq, Prod.mk.injEq] at h
        obtain ⟨rfl, rfl⟩ := h
        obtain ⟨hs, hna⟩ := ih a1 hc
        refine ⟨by rw [hs]; rfl, ?_⟩
        simp only [List.mem_cons, not_or]
        exact ⟨fun h => hx h.symm, hna⟩

theorem cutAt_none (sep : Char) (s : Str) (h : cutAt sep s = none) : sep ∉ s := by
  induction s with
  | nil => simp
  | cons x s ih =>
    by_cases hx : x = sep
    · simp [cutAt, hx] at h
    · simp only [cutAt, hx, if_false] at h
      cases hc : cutAt sep s with
      | none =>
        simp only [List.mem_cons, not_or]
        exact ⟨fun h => hx h.symm, ih hc⟩
      | some p =>
        obtain ⟨a1, b1⟩ := p
        simp [hc] at h

theorem Split_of_cutAt_none (sep : Char) (s : Str) (h : cutAt sep s = none) :
    Split sep s = [s] := by
  have hc : s.count sep = 0 := List.count_eq_zero.mpr (cutAt_none sep s h)
  simp [Split, hc, SplitN]

theorem Split_of_cutAt_some (sep : Char) (s a b : Str) (h : cutAt sep s = some (a, b)) :
    Split sep s = a :: Split sep b := by
  obtain ⟨hs, hna⟩ := cutAt_some sep s a b h
  have hc : s.count sep = b.count sep + 1 := by
    rw [hs, List.count_append, List.count_cons_self, List.count_eq_zero.mpr hna]
    omega
  simp [Split, hc, SplitN, h]

/-- What `formatURL` returns, for every input: it never indexes out of range. -/
theorem formatURL_eq (cfg : RouteConfig) (lower : Char → Char) (url : Str) :
    ∃ leave, formatURL cfg lower url =
      some (
        (if (pathSegments lower url).getD 0 [] = [] then cfg.DefaultController
          else (pathSegments lower url).getD 0 []),
        (if (pathSegments lower url).getD 1 [] = [] then cfg.DefaultAction
          else (pathSegments lower url).getD 1 []),
        leave) := by
  unfold formatURL pathSegments
  generalize Trim '/' (ToLower lower url) = t
  dsimp only
  cases h : cutAt '/' t with
  | none =>
    have hs : SplitN '/' 3 t = [t] := by simp [SplitN, h]
    rw [Split_of_cutAt_none '/' t h, hs]
    by_cases ht : t = [] <;> by_cases hd : cfg.DefaultAction = [] <;> simp [ht, hd]
  | some p =>
    obtain ⟨a, b⟩ := p
    rw [Split_of_cutAt_some '/' t a b h]
    cases h2 : cutAt '/' b with
    | none =>
      have hs : SplitN '/' 3 t = [a, b] := by simp [SplitN, h, h2]
      rw [Split_of_cutAt_none '/' b h2, hs]
      by_cases ha : a = [] <;> by_cases hb : b = [] <;> simp [ha, hb]
    | some q =>
      obtain ⟨c, d⟩ := q
      have hs : SplitN '/' 3 t = [a, c, d] := by simp [SplitN, h, h2]
      rw [Split_of_cutAt_some '/' b c d h2, hs]
      by_cases ha : a = [] <;> by_cases hc : c = [] <;> simp [ha, hc]

/-- C16 fails: with the default controller `index`, the path `/index/list`
gives the controller `index`, which is the default controller, although the
first segment of the path is not empty. -/
theorem default_controller_named_in_path :
    sampleConfig.DefaultController ≠ [] ∧ sampleConfig.DefaultAction ≠ [] ∧
    formatURL sampleConfig asciiLower "/index/list".toList =
      some ("index".toList, "list".toList, []) ∧
    "index".toList = sampleConfig.DefaultController ∧
    (pathSegments asciiLower "/index/list".toList).getD 0 [] = "index".toList ∧
    ¬ ("index".toList = sampleConfig.DefaultController ↔
        (pathSegments asciiLower "/index/list".toList).getD 0 [] = []) := by
  decide

/-- C16, amended: for every input string and non-empty defaults, `formatURL`
returns (no index is out of range) a non-empty controller and a non-empty
action.  The controller is the first segment of the lower-cased, slash-trimmed
path when that segment is non-empty and the default controller otherwise, so
it is the default controller exactly when the first segment is empty or is the
default controller itself; the action is the second segment when that is
present and non-empty and the default action otherwise. -/
theorem formatURL_defaults (cfg : RouteConfig) (lower : Char → Char) (url : Str)
    (hdc : cfg.DefaultController ≠ []) (hda : cfg.DefaultAction ≠ []) :
    ∃ controller action leave,
      formatURL cfg lower url = some (controller, action, leave) ∧
      controller ≠ [] ∧ action ≠ [] ∧
      controller = (if (pathSegments lower url).getD 0 [] = [] then cfg.DefaultController
        else (pathSegments lower url).getD 0 []) ∧
      action = (if (pathSegments lower url).getD 1 [] = [] then cfg.DefaultAction
        else (pathSegments lower url).getD 1 []) ∧
      (controller = cfg.DefaultController ↔
        (pathSegments lower url).getD 0 [] = [] ∨
          (pathSegments lower url).getD 0 [] = cfg.DefaultController) ∧
      (action = cfg.DefaultAction ↔
        (pathSegments lower url).getD 1 [] = [] ∨
          (pathSegments lower url).getD 1 [] = cfg.DefaultAction) := by
  obtain ⟨leave, h⟩ := formatURL_eq cfg lower url
  refine ⟨_, _, leave, h, ?_, ?_, rfl, rfl, ?_, ?_⟩
  · by_cases h0 : (pathSegments lower url).getD 0 [] = []
    · rw [if_pos h0]
      exact hdc
    · rw [if_neg h0]
      exact h0
  · by_cases h1 : (pathSegments lower url).getD 1 [] = []
    · rw [if_pos h1]
      exact hda
    · rw [if_neg h1]
      exact h1
  · by_cases h0 : (pathSegments lower url).getD 0 [] = []
    · rw [if_pos h0]
      exact ⟨fun _ => Or.inl h0, fun _ => rfl⟩
    · rw [if_neg h0]
      exact ⟨fun h => Or.inr h, fun h => h.resolve_left h0⟩
  · by_cases h1 : (pathSegments lower url).getD 1 [] = []
    · rw [if_pos h1]
      exact ⟨fun _ => Or.inl h1, fun _ => rfl⟩
    · rw [if_neg h1]
      exact ⟨fun h => Or.inr h, fun h => h.resolve_left h1⟩

/-- C16, amended, at `/foo//baz`: the empty second segment gives the default
action. -/
theorem formatURL_defaults_witness :
    sampleConfig.DefaultController ≠ [] ∧ sampleConfig.DefaultAction ≠ [] ∧
    (pathSegments asciiLower "/foo//baz".toList).getD 1 [] = [] ∧
    ∃ controller action leave,
      formatURL sampleConfig asciiLower "/foo//baz".toList = some (controller, action, leave) ∧
      controller = "foo".toList ∧ action = "index".toList :=
  have h := formatURL_defaults sampleConfig asciiLower "/foo//baz".toList (by decide)
    (by decide)
  have h0 : (pathSegments asciiLower "/foo//baz".toList).getD 0 [] = "foo".toList := by
    decide
  have h1 : (pathSegments asciiLower "/foo//baz".toList).getD 1 [] = [] := by decide
  ⟨by decide, by decide, h1,
    h.elim fun controller hc => hc.elim fun action ha => ha.elim fun leave hl =>
      ⟨controller, action, leave, hl.1, by rw [hl.2.2.2.1, h0]; decide,
        by rw [hl.2.2.2.2.1, h1]; decide⟩⟩

/-! ## `Handler` -/

theorem Keeps.refl (t : Tables) : Keeps t t :=
  ⟨rfl, rfl, rfl, fun _ _ _ h => h⟩

theorem Keeps.trans {t t1 t2 : Tables} (h1 : Keeps t t1) (h2 : Keeps t1 t2) : Keeps t t2 :=
  ⟨h2.routeInit.trans h1.routeInit, h2.handleFuncs.trans h1.handleFuncs,
    h2.register.trans h1.register,
    fun isMethod k v h => h2.routes isMethod k v (h1.routes isMethod k v h)⟩

/-- Adding a route under a path that is not yet a key keeps the tables. -/
theorem Keeps.insert (t : Tables) (isMethod : Bool) (path : Str) (value : Instance)
    (habsent : mapGet (tableFor isMethod t) path = none) :
    Keeps t (if isMethod then { t with routeMapMethod := mapSet t.routeMapMethod path value }
      else { t with routeMap := mapSet t.routeMap path value }) := by
  refine ⟨?_, ?_, ?_, ?_⟩
  · cases isMethod <;> rfl
  · cases isMethod <;> rfl
  · cases isMethod <;> rfl
  · intro b k v hk
    cases isMethod <;> cases b <;> simp only [tableFor, Bool.false_eq_true, if_false, if_true]
      at habsent hk ⊢ <;> first
      | exact hk
      | (rw [mapGet_mapSet]
         by_cases hp : path = k
         · rw [hp, hk] at habsent
           cases habsent
         · rw [if_neg hp]
           exact hk)

/-- One step of the loop over the actions. -/
theorem Handler.actions_cons (controller : Str) (value : Instance) (method : Str)
    (isMethod : Bool) (action : Str) (rest : List Str) (t : Tables) :
    Handler.actions controller value method isMethod (action :: rest) t =
      if (mapGet (tableFor isMethod t) (routePath controller action method isMethod)).isSome
      then Except.error (routePath controller action method isMethod ++ " exist".toList, t)
      else Handler.actions controller value method isMethod rest
        (if isMethod then
          { t with
            routeMapMethod :=
              mapSet t.routeMapMethod (routePath controller action method isMethod) value }
        else
          { t with
            routeMap :=
              mapSet t.routeMap (routePath controller action method isMethod) value }) := by
  cases isMethod <;> simp [Handler.actions, tableFor, routePath]

theorem Handler.actions_keeps (controller : Str) (value : Instance) (method : Str)
    (isMethod : Bool) (acts : List Str) (t : Tables) :
    Keeps t (loopTables (Handler.actions controller value method isMethod acts t)) := by
  induction acts generalizing t with
  | nil => exact Keeps.refl t
  | cons a rest ih =>
    rw [Handler.actions_cons]
    cases hp : mapGet (tableFor isMethod t) (routePath controller a method isMethod) with
    | some v => exact Keeps.refl t
    | none =>
      simp only [Option.isSome_none, Bool.false_eq_true, if_false]
      exact (Keeps.insert t isMethod _ value hp).trans (ih _)

theorem Handler.methods_keeps (grm : Str → RequestMethod) (controller : Str)
    (c : Controller) (name : Str) (ms : List Str) (t : Tables) :
    Keeps t (loopTables (Handler.methods grm controller c name ms t)) := by
  induction ms generalizing t with
  | nil => exact Keeps.refl t
  | cons m ms ih =>
    unfold Handler.methods
    by_cases hh : m ∈ hookNames
    · rw [if_pos hh]
      exact ih t
    · rw [if_neg hh]
      have hk := Handler.actions_keeps controller
        { reflectVal := c, controllerName := name, methodName := m }
        (grm m).method (grm m).isMethod (grm m).actions t
      cases ha : Handler.actions controller
        { reflectVal := c, controllerName := name, methodName := m }
        (grm m).method (grm m).isMethod (grm m).actions t with
      | error e =>
        rw [ha] at hk
        exact hk
      | ok t1 =>
        rw [ha] at hk
        exact hk.trans (ih t1)

/-- A loop over the actions that ends: every action has its route, every route
was there before or belongs to one of the actions, and the other map is
untouched. -/
theorem Handler.actions_ok (controller : Str) (value : Instance) (method : Str)
    (isMethod : Bool) (acts : List Str) (t t1 : Tables)
    (h : Handler.actions controller value method isMethod acts t = Except.ok t1) :
    (∀ a ∈ acts,
      mapGet (tableFor isMethod t1) (routePath controller a method isMethod) = some value) ∧
    (∀ b k v, mapGet (tableFor b t1) k = some v →
      mapGet (tableFor b t) k = some v ∨
        (b = isMethod ∧ v = value ∧ ∃ a ∈ acts, k = routePath controller a method isMethod)) := by
  induction acts generalizing t with
  | nil =>
    simp only [Handler.actions, Except.ok.injEq] at h
    subst h
    exact ⟨fun a ha => absurd ha (List.not_mem_nil a), fun b k v hk => Or.inl hk⟩
  | cons a rest ih =>
    rw [Handler.actions_cons] at h
    cases hp : mapGet (tableFor isMethod t) (routePath controller a method isMethod) with
    | some v => simp [hp] at h
    | none =>
      simp only [hp, Option.isSome_none, Bool.false_eq_true, if_false] at h
      obtain ⟨hin, horig⟩ := ih _ h
      have hkeep := Handler.actions_keeps controller value method isMethod rest
        (if isMethod then
          { t with
            routeMapMethod :=
              mapSet t.routeMapMethod (routePath controller a method isMethod) value }
        else
          { t with
            routeMap :=
              mapSet t.routeMap (routePath controller a method isMethod) value })
      rw [h] at hkeep
      refine ⟨?_, ?_⟩
      · intro x hx
        rcases List.mem_cons.mp hx with rfl | hx
        · apply hkeep.routes
          cases isMethod <;> simp [tableFor, mapGet_mapSet]
        · exact hin x hx
      · intro b k v hk
        rcases horig b k v hk with h0 | ⟨hb, hv, x, hx, hxk⟩
        · by_cases hkp : b = isMethod ∧ routePath controller a method isMethod = k
          · obtain ⟨hb, hkp⟩ := hkp
            subst hb
            subst hkp
            right
            refine ⟨rfl, ?_, a, List.mem_cons_self a rest, rfl⟩
            cases b <;> simp [tableFor, mapGet_mapSet] at h0 <;> exact h0.symm
          · left
            cases isMethod <;> cases b <;>
              simp [tableFor, mapGet_mapSet] at h0 hkp ⊢ <;> simp_all
        · exact Or.inr ⟨hb, hv, x, List.mem_cons_of_mem a hx, hxk⟩

/-- A loop over the methods that ends: every action of every method that is
not a hook has its route, and every route was there before or belongs to one
of them. -/
theorem Handler.methods_ok (grm : Str → RequestMethod) (controller : Str) (c : Controller)
    (name : Str) (ms : List Str) (t t1 : Tables)
    (h : Handler.methods grm controller c name ms t = Except.ok t1) :
    (∀ m ∈ ms, m ∉ hookNames → ∀ a ∈ (grm m).actions,
      mapGet (tableFor (grm m).isMethod t1)
        (routePath controller a (grm m).method (grm m).isMethod) =
        some { reflectVal := c, controllerName := name, methodName := m }) ∧
    (∀ b k v, mapGet (tableFor b t1) k = some v →
      mapGet (tableFor b t) k = some v ∨
        ∃ m ∈ ms, m ∉ hookNames ∧ (grm m).isMethod = b ∧
          v = { reflectVal := c, controllerName := name, methodName := m } ∧
          ∃ a ∈ (grm m).actions, k = routePath controller a (grm m).method b) := by
  induction ms generalizing t with
  | nil =>
    simp only [Handler.methods, Except.ok.injEq] at h
    subst h
    exact ⟨fun m hm => absurd hm (List.not_mem_nil m), fun b k v hk => Or.inl hk⟩
  | cons m ms ih =>
    unfold Handler.methods at h
    by_cases hh : m ∈ hookNames
    · rw [if_pos hh] at h
      obtain ⟨hin, horig⟩ := ih t h
      refine ⟨?_, ?_⟩
      · intro x hx hxh
        rcases List.mem_cons.mp hx with rfl | hx
        · exact absurd hh hxh
        · exact hin x hx hxh
      · intro b k v hk
        rcases horig b k v hk with h0 | ⟨x, hx, hrest⟩
        · exact Or.inl h0
        · exact Or.inr ⟨x, List.mem_cons_of_mem m hx, hrest⟩
    · rw [if_neg hh] at h
      cases ha : Handler.actions controller
        { reflectVal := c, controllerName := name, methodName := m }
        (grm m).method (grm m).isMethod (grm m).actions t with
      | error e => simp [ha] at h
      | ok t0 =>
        simp only [ha] at h
        obtain ⟨hin0, horig0⟩ := Handler.actions_ok _ _ _ _ _ _ _ ha
        obtain ⟨hin, horig⟩ := ih t0 h
        have hkeep := Handler.methods_keeps grm controller c name ms t0
        rw [h] at hkeep
        refine ⟨?_, ?_⟩
        · intro x hx hxh
          rcases List.mem_cons.mp hx with rfl | hx
          · intro a ha2
            exact hkeep.routes _ _ _ (hin0 a ha2)
          · exact hin x hx hxh
        · intro b k v hk
          rcases horig b k v hk with h0 | ⟨x, hx, hrest⟩
          · rcases horig0 b k v h0 with h00 | ⟨hb, hv, a, ha2, hak⟩
            · exact Or.inl h00
            · exact Or.inr ⟨m, List.mem_cons_self m ms, hh, hb.symm, hv, a, ha2, hb ▸ hak⟩
          · exact Or.inr ⟨x, List.mem_cons_of_mem m hx, hrest⟩

/-- A loop over the actions panics when the path of one of them is already a
key. -/
theorem Handler.actions_collision (controller : Str) (value : Instance) (method : Str)
    (isMethod : Bool) (acts : List Str) (t : Tables)
    (h : ∃ a ∈ acts,
      (mapGet (tableFor isMethod t) (routePath controller a method isMethod)).isSome = true) :
    ∃ e, Handler.actions controller value method isMethod acts t = Except.error e := by
  induction acts generalizing t with
  | nil =>
    obtain ⟨a, ha, -⟩ := h
    exact absurd ha (List.not_mem_nil a)
  | cons x rest ih =>
    rw [Handler.actions_cons]
    cases hp : mapGet (tableFor isMethod t) (routePath controller x method isMethod) with
    | some v =>
      simp only [Option.isSome_some, if_true]
      exact ⟨_, rfl⟩
    | none =>
      simp only [Option.isSome_none, Bool.false_eq_true, if_false]
      apply ih
      obtain ⟨a, ha, hsome⟩ := h
      rcases List.mem_cons.mp ha with rfl | ha
      · simp [hp] at hsome
      · refine ⟨a, ha, ?_⟩
        obtain ⟨v, hv⟩ := Option.isSome_iff_exists.mp hsome
        rw [(Keeps.insert t isMethod _ value hp).routes isMethod _ v hv]
        rfl

/-- A loop over the methods panics when a path derived from one of them is
already a key. -/
theorem Handler.methods_collision (grm : Str → RequestMethod) (controller : Str)
    (c : Controller) (name : Str) (ms : List Str) (t : Tables)
    (h : ∃ m ∈ ms, m ∉ hookNames ∧ ∃ a ∈ (grm m).actions,
      (mapGet (tableFor (grm m).isMethod t)
        (routePath controller a (grm m).method (grm m).isMethod)).isSome = true) :
    ∃ e, Handler.methods grm controller c name ms t = Except.error e := by
  induction ms generalizing t with
  | nil =>
    obtain ⟨m, hm, -⟩ := h
    exact absurd hm (List.not_mem_nil m)
  | cons x ms ih =>
    obtain ⟨m, hm, hmh, a, ha, hsome⟩ := h
    unfold Handler.methods
    by_cases hh : x ∈ hookNames
    · rw [if_pos hh]
      apply ih
      rcases List.mem_cons.mp hm with rfl | hm
      · exact absurd hh hmh
      · exact ⟨m, hm, hmh, a, ha, hsome⟩
    · rw [if_neg hh]
      cases hx : Handler.actions controller
        { reflectVal := c, controllerName := name, methodName := x }
        (grm x).method (grm x).isMethod (grm x).actions t with
      | error e => exact ⟨e, rfl⟩
      | ok t0 =>
        simp only
        apply ih
        rcases List.mem_cons.mp hm with rfl | hm
        · obtain ⟨e, he⟩ := Handler.actions_collision controller
            { reflectVal := c, controllerName := name, methodName := m }
            (grm m).method (grm m).isMethod (grm m).actions t ⟨a, ha, hsome⟩
          rw [he] at hx
          cases hx
        · refine ⟨m, hm, hmh, a, ha, ?_⟩
          have hkeep := Handler.actions_keeps controller
            { reflectVal := c, controllerName := name, methodName := x }
            (grm x).method (grm x).isMethod (grm x).actions t
          rw [hx] at hkeep
          change Keeps t t0 at hkeep
          obtain ⟨v, hv⟩ := Option.isSome_iff_exists.mp hsome
          rw [hkeep.routes _ _ v hv]
          rfl

/-- The call `http.HandleFunc` panics exactly on a pattern the mux already
holds, and otherwise adds the pattern to the mux; it changes nothing else. -/
theorem httpHandleFunc_cases (p : Str) (t : Tables) (hp : p ≠ []) :
    (p ∈ t.handleFuncs ∧ ∃ msg, httpHandleFunc p t = Except.error (msg, t)) ∨
    (p ∉ t.handleFuncs ∧
      httpHandleFunc p t = Except.ok { t with handleFuncs := t.handleFuncs ++ [p] }) := by
  unfold httpHandleFunc
  rw [if_neg hp]
  by_cases h : p ∈ t.handleFuncs
  · exact Or.inl ⟨h, _, if_pos h⟩
  · exact Or.inr ⟨h, if_neg h⟩

/-- What `Handler.init` does, case by case. -/
theorem Handler.init_cases (t : Tables) :
    (t.routeInit = true ∧ Handler.init t = Except.ok t) ∨
    (t.routeInit = false ∧ "/".toList ∈ t.handleFuncs ∧
      ∃ msg, Handler.init t = Except.error (msg, { t with routeInit := true })) ∨
    (t.routeInit = false ∧ "/".toList ∉ t.handleFuncs ∧
      "/logger/adjust".toList ∈ t.handleFuncs ∧
      ∃ msg, Handler.init t = Except.error
        (msg, { t with routeInit := true, handleFuncs := t.handleFuncs ++ ["/".toList] })) ∨
    (t.routeInit = false ∧ "/".toList ∉ t.handleFuncs ∧
      "/logger/adjust".toList ∉ t.handleFuncs ∧
      Handler.init t = Except.ok
        { t with routeInit := true,
                 handleFuncs := t.handleFuncs ++ ["/".toList] ++ ["/logger/adjust".toList] }) := by
  cases hi : t.routeInit
  · right
    have hunf : Handler.init t =
        match httpHandleFunc "/".toList { t with routeInit := true } with
        | Except.error e => Except.error e
        | Except.ok t1 => httpHandleFunc "/logger/adjust".toList t1 := by
      unfold Handler.init
      rw [hi]
      rfl
    rcases httpHandleFunc_cases "/".toList { t with routeInit := true } (by decide) with
      ⟨h1, msg, he⟩ | ⟨h1, he⟩
    · left
      refine ⟨rfl, h1, msg, ?_⟩
      rw [hunf, he]
    · right
      rcases httpHandleFunc_cases "/logger/adjust".toList
          { t with routeInit := true, handleFuncs := t.handleFuncs ++ ["/".toList] }
          (by decide) with
        ⟨h2, msg, he2⟩ | ⟨h2, he2⟩
      · left
        have h2m : "/logger/adjust".toList ∈ t.handleFuncs := by
          have h2b : "/logger/adjust".toList ∈ t.handleFuncs ++ ["/".toList] := h2
          rcases List.mem_append.mp h2b with h | h
          · exact h
          · exact absurd (List.mem_singleton.mp h) (by decide)
        refine ⟨rfl, h1, h2m, msg, ?_⟩
        rw [hunf, he]
        exact he2
      · right
        have h2m : "/logger/adjust".toList ∉ t.handleFuncs := by
          intro hm
          exact h2 (List.mem_append.mpr (Or.inl hm))
        refine ⟨rfl, h1, h2m, ?_⟩
        rw [hunf, he]
        exact he2
  · left
    refine ⟨rfl, ?_⟩
    unfold Handler.init
    rw [hi]
    rfl

/-- The registrations of the first call leave the three route tables alone,
whether they succeed or panic. -/
theorem Handler.init_maps (t : Tables) :
    (loopTables (Handler.init t)).routeMap = t.routeMap ∧
    (loopTables (Handler.init t)).routeMapMethod = t.routeMapMethod ∧
    (loopTables (Handler.init t)).routeMapRegister = t.routeMapRegister := by
  rcases Handler.init_cases t with ⟨-, h⟩ | ⟨-, -, msg, h⟩ | ⟨-, -, -, msg, h⟩ | ⟨-, -, -, h⟩ <;>
    rw [h] <;> exact ⟨rfl, rfl, rfl⟩

theorem Handler.init_ok (t t0 : Tables) (h : Handler.init t = Except.ok t0) :
    t0.routeMap = t.routeMap ∧ t0.routeMapMethod = t.routeMapMethod ∧
    t0.routeMapRegister = t.routeMapRegister ∧ t0.routeInit = true := by
  rcases Handler.init_cases t with ⟨hi, h1⟩ | ⟨-, -, msg, h1⟩ | ⟨-, -, -, msg, h1⟩ |
      ⟨-, -, -, h1⟩ <;> rw [h1] at h
  · cases h
    exact ⟨rfl, rfl, rfl, hi⟩
  · cases h
  · cases h
  · cases h
    exact ⟨rfl, rfl, rfl, rfl⟩

theorem Handler.init_done (t : Tables) (h : t.routeInit = true) :
    Handler.init t = Except.ok t := by
  unfold Handler.init
  rw [h]
  rfl

/-- The registrations succeed exactly on tables that are ready for them. -/
theorem Handler.init_ready (t : Tables) : muxReady t ↔ ∃ t0, Handler.init t = Except.ok t0 := by
  unfold muxReady
  rcases Handler.init_cases t with ⟨hi, h1⟩ | ⟨hi, hm, msg, h1⟩ | ⟨hi, -, hm, msg, h1⟩ |
      ⟨hi, hm1, hm2, h1⟩
  · exact ⟨fun _ => ⟨_, h1⟩, fun _ => Or.inl hi⟩
  · constructor
    · rintro (h | ⟨h, -⟩)
      · rw [hi] at h
        cases h
      · exact absurd hm h
    · rintro ⟨t0, h⟩
      rw [h1] at h
      cases h
  · constructor
    · rintro (h | ⟨-, h⟩)
      · rw [hi] at h
        cases h
      · exact absurd hm h
    · rintro ⟨t0, h⟩
      rw [h1] at h
      cases h
  · exact ⟨fun _ => ⟨_, h1⟩, fun _ => Or.inr ⟨hm1, hm2⟩⟩

/-- `Handler` when the registrations of its first call panic. -/
theorem Handler_of_init_panic (cfg : RouteConfig) (lower : Char → Char)
    (grm : Str → RequestMethod) (pattern : Str) (c : Controller) (t : Tables)
    (hnot : ¬ muxReady t) :
    ∃ msg t1, Handler cfg lower grm pattern c t = Registered.panic msg t1 ∧
      t1.routeMap = t.routeMap ∧ t1.routeMapMethod = t.routeMapMethod ∧
      t1.routeMapRegister = t.routeMapRegister := by
  obtain ⟨h1, h2, h3⟩ := Handler.init_maps t
  cases hinit : Handler.init t with
  | ok t0 => exact absurd ((Handler.init_ready t).mpr ⟨t0, hinit⟩) hnot
  | error e =>
    obtain ⟨msg, t1⟩ := e
    rw [hinit] at h1 h2 h3
    refine ⟨msg, t1, ?_, h1, h2, h3⟩
    unfold Handler
    simp only [hinit]

/-- `Handler` once the registrations of its first call are done and
`formatURL` has returned. -/
theorem Handler_of_format (cfg : RouteConfig) (lower : Char → Char)
    (grm : Str → RequestMethod) (pattern : Str) (c : Controller) (t t0 : Tables)
    (controller action leave : Str) (hinit : Handler.init t = Except.ok t0)
    (hfmt : formatURL cfg lower pattern = some (controller, action, leave)) :
    Handler cfg lower grm pattern c t =
      if leave ≠ [] then
        Registered.error ("pattern must only 1 or 2 segment, got ".toList ++ pattern) t0
      else
        match mapGet t0.routeMapRegister pattern with
        | some c0 =>
          if c0 ≠ c.typeName then
            Registered.panic (pattern ++ " has register controller:".toList ++ c0) t0
          else Registered.ok t0
        | none =>
          match Handler.methods grm controller c c.typeName c.methods
              { t0 with
                routeMapRegister := mapSet t0.routeMapRegister pattern c.typeName } with
          | Except.error (msg, t1) => Registered.panic msg t1
          | Except.ok t1 => Registered.ok t1 := by
  unfold Handler
  simp only [hinit, hfmt]

/-- C11 fails: `/user` is registered for the controller `User`; registering
`/user/` for the controller `Admin`, whose method `List` derives the path
`user/list` already bound to `User`, panics, and `routeMapRegister` has by then
gained the pattern `/user/`. -/
theorem collision_changes_register :
    (mapGet userTables.routeMap "user/list".toList).map (fun i => i.controllerName) =
      some "User".toList ∧
    (∃ t1, Handler sampleConfig asciiLower sampleRequestMethod "/user/".toList
        adminController userTables = Registered.panic "user/list exist".toList t1 ∧
      mapGet t1.routeMapRegister "/user/".toList = some "Admin".toList) ∧
    mapGet userTables.routeMapRegister "/user/".toList = none ∧
    (Handler sampleConfig asciiLower sampleRequestMethod "/user/".toList adminController
      userTables).tables.routeMapRegister ≠ userTables.routeMapRegister := by
  refine ⟨by decide, ⟨_, rfl, by decide⟩, by decide, by decide⟩

/-- C11, amended: the pattern has no third segment.  If the pattern is already
registered under another controller name, `Handler` panics and leaves
`routeMap`, `routeMapMethod` and `routeMapRegister` as they were.  If the
pattern is not yet registered and a path derived for the controller is already
a key of its map, `Handler` panics as well and keeps every route present
before the call with its binding; `routeMapRegister` has then gained the
pattern, provided the registrations of a first call did not panic (which is
so once `routeInit` is set, as it is after any earlier call of `Handler`);
when they do panic, the three maps are as they were. -/
theorem Handler_collision (cfg : RouteConfig) (lower : Char → Char)
    (grm : Str → RequestMethod) (pattern : Str) (c : Controller) (t : Tables)
    (controller action : Str)
    (hfmt : formatURL cfg lower pattern = some (controller, action, [])) :
    (∀ c0, mapGet t.routeMapRegister pattern = some c0 → c0 ≠ c.typeName →
      ∃ msg t1, Handler cfg lower grm pattern c t = Registered.panic msg t1 ∧
        t1.routeMap = t.routeMap ∧ t1.routeMapMethod = t.routeMapMethod ∧
        t1.routeMapRegister = t.routeMapRegister) ∧
    (mapGet t.routeMapRegister pattern = none →
      (∃ m ∈ c.methods, m ∉ hookNames ∧ ∃ a ∈ (grm m).actions,
        (mapGet (tableFor (grm m).isMethod t)
          (routePath controller a (grm m).method (grm m).isMethod)).isSome = true) →
      (muxReady t →
        ∃ msg t1, Handler cfg lower grm pattern c t = Registered.panic msg t1 ∧
          t1.routeMapRegister = mapSet t.routeMapRegister pattern c.typeName ∧
          t1.routeMapRegister ≠ t.routeMapRegister ∧
          (∀ k v, mapGet t.routeMap k = some v → mapGet t1.routeMap k = some v) ∧
          (∀ k v, mapGet t.routeMapMethod k = some v →
            mapGet t1.routeMapMethod k = some v)) ∧
      (¬ muxReady t →
        ∃ msg t1, Handler cfg lower grm pattern c t = Registered.panic msg t1 ∧
          t1.routeMap = t.routeMap ∧ t1.routeMapMethod = t.routeMapMethod ∧
          t1.routeMapRegister = t.routeMapRegister)) ∧
    (t.routeInit = true → muxReady t) := by
  refine ⟨?_, ?_, fun h => Or.inl h⟩
  · intro c0 hc0 hne
    by_cases hready : muxReady t
    · obtain ⟨t0, hinit⟩ := (Handler.init_ready t).mp hready
      obtain ⟨hrm, hrmm, hreg, -⟩ := Handler.init_ok t t0 hinit
      refine ⟨pattern ++ " has register controller:".toList ++ c0, t0, ?_, hrm, hrmm, hreg⟩
      rw [Handler_of_format cfg lower grm pattern c t t0 controller action [] hinit hfmt,
        hreg, hc0]
      simp [hne]
    · exact Handler_of_init_panic cfg lower grm pattern c t hready
  · intro hnone hcol
    refine ⟨?_, Handler_of_init_panic cfg lower grm pattern c t⟩
    intro hready
    obtain ⟨t0, hinit⟩ := (Handler.init_ready t).mp hready
    obtain ⟨hrm, hrmm, hreg, -⟩ := Handler.init_ok t t0 hinit
    have hcol2 : ∃ m ∈ c.methods, m ∉ hookNames ∧ ∃ a ∈ (grm m).actions,
        (mapGet (tableFor (grm m).isMethod
          { t0 with routeMapRegister := mapSet t0.routeMapRegister pattern c.typeName })
          (routePath controller a (grm m).method (grm m).isMethod)).isSome = true := by
      obtain ⟨m, hm, hmh, a, ha, hsome⟩ := hcol
      refine ⟨m, hm, hmh, a, ha, ?_⟩
      cases hb : (grm m).isMethod <;> simp only [hb, tableFor, Bool.false_eq_true, if_false,
        if_true, hrm, hrmm] at hsome ⊢ <;> exact hsome
    obtain ⟨⟨msg, t1⟩, he⟩ := Handler.methods_collision grm controller c c.typeName c.methods
      _ hcol2
    have hkeep := Handler.methods_keeps grm controller c c.typeName c.methods
      { t0 with routeMapRegister := mapSet t0.routeMapRegister pattern c.typeName }
    rw [he] at hkeep
    change Keeps _ t1 at hkeep
    refine ⟨msg, t1, ?_, ?_, ?_, ?_, ?_⟩
    · rw [Handler_of_format cfg lower grm pattern c t t0 controller action [] hinit hfmt,
        hreg, hnone]
      simp only [ne_eq, not_true_eq_false, if_false]
      rw [← hreg, he]
    · rw [hkeep.register, hreg]
    · intro heq
      have h1 : mapGet t1.routeMapRegister pattern = some c.typeName := by
        rw [hkeep.register, mapGet_mapSet, if_pos rfl]
      rw [heq, hnone] at h1
      cases h1
    · intro k v hk
      have := hkeep.routes false k v
      simp only [tableFor, Bool.false_eq_true, if_false, hrm] at this
      exact this hk
    · intro k v hk
      have := hkeep.routes true k v
      simp only [tableFor, if_true, hrmm] at this
      exact this hk

/-- C11, amended, at the registration of `/user/` for `Admin` after `/user` for
`User`. -/
theorem Handler_collision_witness :
    formatURL sampleConfig asciiLower "/user/".toList =
      some ("user".toList, "index".toList, []) ∧
    mapGet userTables.routeMapRegister "/user/".toList = none ∧
    muxReady userTables ∧
    ∃ msg t1, Handler sampleConfig asciiLower sampleRequestMethod "/user/".toList
        adminController userTables = Registered.panic msg t1 ∧
      t1.routeMapRegister ≠ userTables.routeMapRegister :=
  have hfmt : formatURL sampleConfig asciiLower "/user/".toList =
      some ("user".toList, "index".toList, []) := by decide
  have h := ((Handler_collision sampleConfig asciiLower sampleRequestMethod "/user/".toList
    adminController userTables "user".toList "index".toList hfmt).2.1 (by decide)
    ⟨"List".toList, by decide, by decide, "list".toList, by decide, by decide⟩).1 (by decide)
  ⟨hfmt, by decide, by decide,
    h.elim fun msg hm => hm.elim fun t1 ht => ⟨msg, t1, ht.1, ht.2.2.1⟩⟩

/-- A call of `Handler` that returns nil: its registrations did not panic, it
leaves the pattern registered under the name of the controller, with
`routeInit` set and no third segment. -/
theorem Handler_ok (cfg : RouteConfig) (lower : Char → Char) (grm : Str → RequestMethod)
    (pattern : Str) (c : Controller) (t t1 : Tables)
    (hok : Handler cfg lower grm pattern c t = Registered.ok t1) :
    ∃ t0 controller action,
      Handler.init t = Except.ok t0 ∧
      formatURL cfg lower pattern = some (controller, action, []) ∧
      t1.routeInit = true ∧ mapGet t1.routeMapRegister pattern = some c.typeName ∧
      (mapGet t0.routeMapRegister pattern = none →
        Handler.methods grm controller c c.typeName c.methods
          { t0 with routeMapRegister := mapSet t0.routeMapRegister pattern c.typeName } =
          Except.ok t1) := by
  cases hinit : Handler.init t with
  | error e =>
    obtain ⟨msg, t2⟩ := e
    simp [Handler, hinit] at hok
  | ok t0 =>
    obtain ⟨-, -, -, hri⟩ := Handler.init_ok t t0 hinit
    cases hfmt : formatURL cfg lower pattern with
    | none => simp [Handler, hinit, hfmt] at hok
    | some r =>
      obtain ⟨controller, action, leave⟩ := r
      rw [Handler_of_format cfg lower grm pattern c t t0 controller action leave hinit hfmt]
        at hok
      by_cases hl : leave = []
      · subst hl
        refine ⟨t0, controller, action, rfl, rfl, ?_⟩
        simp only [ne_eq, not_true_eq_false, if_false] at hok
        cases hreg : mapGet t0.routeMapRegister pattern with
        | some c0 =>
          simp only [hreg] at hok
          by_cases hc : c0 = c.typeName
          · simp only [hc, ne_eq, not_true_eq_false, if_false, Registered.ok.injEq] at hok
            subst hok
            exact ⟨hri, by rw [hreg, hc], fun h => by cases h⟩
          · simp [hc] at hok
        | none =>
          simp only [hreg] at hok
          cases hm : Handler.methods grm controller c c.typeName c.methods
              { t0 with
                routeMapRegister := mapSet t0.routeMapRegister pattern c.typeName } with
          | error e =>
            obtain ⟨msg, t2⟩ := e
            simp [hm] at hok
          | ok t2 =>
            simp only [hm, Registered.ok.injEq] at hok
            subst hok
            have hkeep := Handler.methods_keeps grm controller c c.typeName c.methods
              { t0 with routeMapRegister := mapSet t0.routeMapRegister pattern c.typeName }
            rw [hm] at hkeep
            change Keeps _ t2 at hkeep
            refine ⟨?_, ?_, fun _ => rfl⟩
            · rw [hkeep.routeInit]
              exact hri
            · rw [hkeep.register, mapGet_mapSet, if_pos rfl]
      · simp [hl] at hok

/-- C12: after `Handler(pattern, c)` has returned nil, a second call with the
same pattern and a controller of the same type name returns nil, does not
panic, and leaves the tables, `routeMap`, `routeMapMethod` and
`routeMapRegister` among them, exactly as they were. -/
theorem Handler_again (cfg : RouteConfig) (lower : Char → Char) (grm : Str → RequestMethod)
    (pattern : Str) (c c2 : Controller) (t t1 : Tables)
    (hok : Handler cfg lower grm pattern c t = Registered.ok t1)
    (hname : c2.typeName = c.typeName) :
    Handler cfg lower grm pattern c2 t1 = Registered.ok t1 := by
  obtain ⟨t0, controller, action, -, hfmt, hinit, hreg, -⟩ :=
    Handler_ok cfg lower grm pattern c t t1 hok
  rw [Handler_of_format cfg lower grm pattern c2 t1 t1 controller action []
    (Handler.init_done t1 hinit) hfmt, hreg]
  simp [hname]

/-- C12 at the pattern `/user`, registered twice for controllers of type
`User`. -/
theorem Handler_again_witness :
    Handler sampleConfig asciiLower sampleRequestMethod "/user".toList userController
      emptyTables = Registered.ok userTables ∧
    Handler sampleConfig asciiLower sampleRequestMethod "/user".toList
      { userController with ptr := 3 } userTables = Registered.ok userTables :=
  have hok : Handler sampleConfig asciiLower sampleRequestMethod "/user".toList
      userController emptyTables = Registered.ok userTables := by decide
  ⟨hok, Handler_again sampleConfig asciiLower sampleRequestMethod "/user".toList
    userController { userController with ptr := 3 } emptyTables userTables hok rfl⟩

/-- C13 fails: the pattern `/user/list` has a second segment, yet `Handler`
returns nil and registers the routes of the controller under `user`. -/
theorem two_segments_accepted :
    (∃ t1, Handler sampleConfig asciiLower sampleRequestMethod "/user/list".toList
        userController emptyTables = Registered.ok t1 ∧
      mapGet t1.routeMapRegister "/user/list".toList = some "User".toList ∧
      (mapGet t1.routeMap "user/list".toList).isSome = true) ∧
    ∀ msg t1, Handler sampleConfig asciiLower sampleRequestMethod "/user/list".toList
      userController emptyTables ≠ Registered.error msg t1 := by
  refine ⟨⟨_, rfl, by decide, by decide⟩, ?_⟩
  intro msg t1 h
  have h3 : ∃ t2, Handler sampleConfig asciiLower sampleRequestMethod "/user/list".toList
      userController emptyTables = Registered.ok t2 := ⟨_, rfl⟩
  obtain ⟨t2, h4⟩ := h3
  rw [h4] at h
  cases h

/-- C13, amended: a pattern with a third segment (`formatURL` leaves a
non-empty remainder) adds no entry to `routeMap`, `routeMapMethod` or
`routeMapRegister`: `Handler` returns an error, except on a first call whose
registration of `/` or `/logger/adjust` with `http.HandleFunc` panics because
that pattern is already on the default mux, and then `Handler` panics.  A
pattern without a third segment, of one or two segments, is never answered
with an error. -/
theorem Handler_third_segment (cfg : RouteConfig) (lower : Char → Char)
    (grm : Str → RequestMethod) (pattern : Str) (c : Controller) (t : Tables)
    (controller action leave : Str)
    (hfmt : formatURL cfg lower pattern = some (controller, action, leave)) :
    (leave ≠ [] →
      (muxReady t →
        ∃ msg t1, Handler cfg lower grm pattern c t = Registered.error msg t1 ∧
          t1.routeMap = t.routeMap ∧ t1.routeMapMethod = t.routeMapMethod ∧
          t1.routeMapRegister = t.routeMapRegister) ∧
      (¬ muxReady t →
        ∃ msg t1, Handler cfg lower grm pattern c t = Registered.panic msg t1 ∧
          t1.routeMap = t.routeMap ∧ t1.routeMapMethod = t.routeMapMethod ∧
          t1.routeMapRegister = t.routeMapRegister)) ∧
    (leave = [] → ∀ msg t1, Handler cfg lower grm pattern c t ≠ Registered.error msg t1) ∧
    (t.routeInit = true → muxReady t) := by
  refine ⟨?_, ?_, fun h => Or.inl h⟩
  · intro hl
    refine ⟨?_, Handler_of_init_panic cfg lower grm pattern c t⟩
    intro hready
    obtain ⟨t0, hinit⟩ := (Handler.init_ready t).mp hready
    obtain ⟨hrm, hrmm, hreg, -⟩ := Handler.init_ok t t0 hinit
    refine ⟨"pattern must only 1 or 2 segment, got ".toList ++ pattern, t0, ?_, hrm, hrmm,
      hreg⟩
    rw [Handler_of_format cfg lower grm pattern c t t0 controller action leave hinit hfmt,
      if_pos hl]
  · intro hl msg t1
    cases hinit : Handler.init t with
    | error e =>
      obtain ⟨msg2, t2⟩ := e
      simp [Handler, hinit]
    | ok t0 =>
      rw [Handler_of_format cfg lower grm pattern c t t0 controller action leave hinit hfmt,
        if_neg (not_not.mpr hl)]
      cases mapGet t0.routeMapRegister pattern with
      | some c0 => by_cases hc : c0 = c.typeName <;> simp [hc]
      | none =>
        cases Handler.methods grm controller c c.typeName c.methods
            { t0 with routeMapRegister := mapSet t0.routeMapRegister pattern c.typeName } with
        | error e => simp
        | ok t2 => simp

/-- C13, amended, at the pattern `/user/list/x`, which has a third segment: an
error on empty tables, a panic when `/` is already on the default mux. -/
theorem Handler_third_segment_witness :
    formatURL sampleConfig asciiLower "/user/list/x".toList =
      some ("user".toList, "list".toList, "x".toList) ∧
    muxReady emptyTables ∧ ¬ muxReady rootHandledTables ∧
    (∃ msg t1, Handler sampleConfig asciiLower sampleRequestMethod "/user/list/x".toList
        userController emptyTables = Registered.error msg t1 ∧
      t1.routeMap = [] ∧ t1.routeMapMethod = [] ∧ t1.routeMapRegister = []) ∧
    ∃ msg t1, Handler sampleConfig asciiLower sampleRequestMethod "/user/list/x".toList
        userController rootHandledTables = Registered.panic msg t1 ∧
      t1.routeMap = [] ∧ t1.routeMapMethod = [] ∧ t1.routeMapRegister = [] :=
  have hfmt : formatURL sampleConfig asciiLower "/user/list/x".toList =
      some ("user".toList, "list".toList, "x".toList) := by decide
  ⟨hfmt, by decide, by decide,
    ((Handler_third_segment sampleConfig asciiLower sampleRequestMethod
      "/user/list/x".toList userController emptyTables "user".toList "list".toList
      "x".toList hfmt).1 (by decide)).1 (by decide),
    ((Handler_third_segment sampleConfig asciiLower sampleRequestMethod
      "/user/list/x".toList userController rootHandledTables "user".toList "list".toList
      "x".toList hfmt).1 (by decide)).2 (by decide)⟩

/-- C14: `Handler(pattern, c)` returns nil on empty route tables, `ctl` is the
controller segment of the pattern and `getRequestMethod` is a given function.
Then for every exposed method `m` of `c` that is not a hook and every action
`a` it derives, `routeMapMethod[ctl/a + "for" + verb]` is the binding
`(c, controllerName, m)` when `m` is verb-qualified and `routeMap[ctl/a]` is
that binding otherwise; and every key of either map is such a path, so no
route comes from a hook method. -/
theorem Handler_routes (cfg : RouteConfig) (lower : Char → Char) (grm : Str → RequestMethod)
    (pattern : Str) (c : Controller) (t t1 : Tables)
    (hempty : t.routeMap = [] ∧ t.routeMapMethod = [] ∧ t.routeMapRegister = [])
    (hok : Handler cfg lower grm pattern c t = Registered.ok t1) :
    ∃ ctl action, formatURL cfg lower pattern = some (ctl, action, []) ∧
      (∀ m ∈ c.methods, m ∉ hookNames → ∀ a ∈ (grm m).actions,
        ((grm m).isMethod = true →
          mapGet t1.routeMapMethod (ctl ++ '/' :: a ++ "for".toList ++ (grm m).method) =
            some { reflectVal := c, controllerName := c.typeName, methodName := m }) ∧
        ((grm m).isMethod = false →
          mapGet t1.routeMap (ctl ++ '/' :: a) =
            some { reflectVal := c, controllerName := c.typeName, methodName := m })) ∧
      (∀ k v, mapGet t1.routeMap k = some v →
        ∃ m ∈ c.methods, m ∉ hookNames ∧ (grm m).isMethod = false ∧
          v = { reflectVal := c, controllerName := c.typeName, methodName := m } ∧
          ∃ a ∈ (grm m).actions, k = ctl ++ '/' :: a) ∧
      (∀ k v, mapGet t1.routeMapMethod k = some v →
        ∃ m ∈ c.methods, m ∉ hookNames ∧ (grm m).isMethod = true ∧
          v = { reflectVal := c, controllerName := c.typeName, methodName := m } ∧
          ∃ a ∈ (grm m).actions, k = ctl ++ '/' :: a ++ "for".toList ++ (grm m).method) := by
  obtain ⟨h1, h2, h3⟩ := hempty
  obtain ⟨t0, ctl, action, hinit, hfmt, -, -, hloop⟩ :=
    Handler_ok cfg lower grm pattern c t t1 hok
  obtain ⟨hrm, hrmm, hreg, -⟩ := Handler.init_ok t t0 hinit
  have hm := hloop (by rw [hreg, h3]; rfl)
  obtain ⟨hin, horig⟩ := Handler.methods_ok grm ctl c c.typeName c.methods _ t1 hm
  refine ⟨ctl, action, hfmt, ?_, ?_, ?_⟩
  · intro m hmem hnh a ha
    have := hin m hmem hnh a ha
    refine ⟨fun hb => ?_, fun hb => ?_⟩
    · simpa [hb, tableFor, routePath] using this
    · simpa [hb, tableFor, routePath] using this
  · intro k v hk
    rcases horig false k v (by simpa [tableFor] using hk) with h0 | ⟨m, hmem, hnh, hb, hv, a, ha, hak⟩
    · simp [tableFor, hrm, h1, mapGet] at h0
    · exact ⟨m, hmem, hnh, hb, hv, a, ha, by simpa [routePath] using hak⟩
  · intro k v hk
    rcases horig true k v (by simpa [tableFor] using hk) with h0 | ⟨m, hmem, hnh, hb, hv, a, ha, hak⟩
    · simp [tableFor, hrmm, h2, mapGet] at h0
    · exact ⟨m, hmem, hnh, hb, hv, a, ha, by simpa [routePath] using hak⟩

/-- C14 at the registration of `/user` for a controller with the methods
`Before`, `Init`, `List` and `SaveForPost`. -/
theorem Handler_routes_witness :
    Handler sampleConfig asciiLower sampleRequestMethod "/user".toList userController
      emptyTables = Registered.ok userTables ∧
    mapGet userTables.routeMap "user/list".toList =
      some { reflectVal := userController, controllerName := "User".toList,
             methodName := "List".toList } ∧
    mapGet userTables.routeMapMethod "user/saveforpost".toList =
      some { reflectVal := userController, controllerName := "User".toList,
             methodName := "SaveForPost".toList } ∧
    userTables.routeMap.length = 1 ∧ userTables.routeMapMethod.length = 1 ∧
    ∃ ctl action, formatURL sampleConfig asciiLower "/user".toList =
      some (ctl, action, []) :=
  have hok : Handler sampleConfig asciiLower sampleRequestMethod "/user".toList
      userController emptyTables = Registered.ok userTables := by decide
  have h := Handler_routes sampleConfig asciiLower sampleRequestMethod "/user".toList
    userController emptyTables userTables ⟨rfl, rfl, rfl⟩ hok
  ⟨hok, by decide, by decide, by decide, by decide,
    h.elim fun ctl hc => hc.elim fun action ha => ⟨ctl, action, ha.1⟩⟩

/-! ## Package `pac` -/

theorem cutAt_induction {P : Str → Prop} (sep : Char)
    (hnone : ∀ s, cutAt sep s = none → P s)
    (hsome : ∀ s a b, cutAt sep s = some (a, b) → P b → P s) : ∀ s, P s := by
  have key : ∀ n (s : Str), s.length = n → P s := by
    intro n
    induction n using Nat.strong_induction_on with
    | _ n ih =>
      intro s hn
      cases h : cutAt sep s with
      | none => exact hnone s h
      | some p =>
        obtain ⟨a, b⟩ := p
        refine hsome s a b h (ih b.length ?_ b rfl)
        obtain ⟨hs, -⟩ := cutAt_some sep s a b h
        rw [← hn, hs, List.length_append, List.length_cons]
        omega
  exact fun s => key s.length s rfl

theorem Split_ne_nil (sep : Char) (s : Str) : Split sep s ≠ [] := by
  cases h : cutAt sep s with
  | none => simp [Split_of_cutAt_none sep s h]
  | some p =>
    obtain ⟨a, b⟩ := p
    simp [Split_of_cutAt_some sep s a b h]

/-- Joining the pieces of a split gives the string back. -/
theorem Join_Split (sep : Char) : ∀ s, Join sep (Split sep s) = s := by
  refine cutAt_induction sep ?_ ?_
  · intro s h
    simp [Split_of_cutAt_none sep s h, Join]
  · intro s a b h ih
    obtain ⟨hs, -⟩ := cutAt_some sep s a b h
    rw [Split_of_cutAt_some sep s a b h]
    cases hb : Split sep b with
    | nil => exact absurd hb (Split_ne_nil sep b)
    | cons x xs =>
      rw [hb] at ih
      simp only [Join, ih]
      exact hs.symm

/-- The first piece of a split is the text before the first separator. -/
theorem Split_head (sep : Char) (s : Str) :
    (Split sep s)[0]? = some (s.takeWhile fun c => c != sep) := by
  cases h : cutAt sep s with
  | none =>
    have hn := cutAt_none sep s h
    have ht : (s.takeWhile fun c => c != sep) = s := by
      rw [List.takeWhile_eq_self_iff]
      intro x hx
      simpa using fun hxs : x = sep => hn (hxs ▸ hx)
    simp [Split_of_cutAt_none sep s h, ht]
  | some p =>
    obtain ⟨a, b⟩ := p
    obtain ⟨hs, hna⟩ := cutAt_some sep s a b h
    have ht : (s.takeWhile fun c => c != sep) = a := by
      rw [hs, List.takeWhile_append_of_pos]
      · simp [List.takeWhile]
      · intro x hx
        simpa using fun hxs : x = sep => hna (hxs ▸ hx)
    simp [Split_of_cutAt_some sep s a b h, ht]

theorem afterDots_absent (a : Str) (ha : '.' ∉ a) : afterDots a = [] := by
  induction a with
  | nil => rfl
  | cons x a ih =>
    have hx : x ≠ '.' := fun h => ha (h ▸ List.mem_cons_self x a)
    simp [afterDots, hx, ih fun h => ha (List.mem_cons_of_mem x h)]

theorem afterDots_append (a b : Str) (ha : '.' ∉ a) :
    afterDots (a ++ '.' :: b) = b :: afterDots b := by
  induction a with
  | nil => simp [afterDots]
  | cons x a ih =>
    have hx : x ≠ '.' := fun h => ha (h ▸ List.mem_cons_self x a)
    simp [afterDots, hx, ih fun h => ha (List.mem_cons_of_mem x h)]

/-- The loop of `Check` over the positions of `hosts` tries the joined tails of
`hosts`, longest first. -/
theorem range_findSome (pac : Map Bool) (hosts : List Str) :
    ((List.range hosts.length).findSome? fun pos => mapGet pac (Join '.' (hosts.drop pos))) =
      firstRule pac ((List.range hosts.length).map fun pos => Join '.' (hosts.drop pos)) := by
  simp [firstRule, List.findSome?_map, Function.comp_def]

theorem joined_tails_cons (h : Str) (t : List Str) :
    ((List.range (h :: t).length).map fun pos => Join '.' ((h :: t).drop pos)) =
      Join '.' (h :: t) :: (List.range t.length).map fun pos => Join '.' (t.drop pos) := by
  simp [List.range_succ_eq_map, Function.comp_def]

/-- The keys that `Check` tries for a host are its dot-separated suffixes. -/
theorem joined_tails_Split : ∀ s : Str,
    ((List.range (Split '.' s).length).map fun pos => Join '.' ((Split '.' s).drop pos)) =
      domainSuffixes s := by
  refine cutAt_induction '.' ?_ ?_
  · intro s h
    simp [Split_of_cutAt_none '.' s h, domainSuffixes, afterDots_absent s (cutAt_none '.' s h),
      Join, List.range_succ]
  · intro s a b h ih
    obtain ⟨hs, hna⟩ := cutAt_some '.' s a b h
    have hj := Join_Split '.' s
    rw [Split_of_cutAt_some '.' s a b h] at hj ⊢
    rw [joined_tails_cons, ih, hj]
    simp only [domainSuffixes]
    rw [hs, afterDots_append a b hna]

/-- A table built with `Add` holds, for each key, the value of the last rule
added for it. -/
theorem mapGet_foldl_Add (rules : List (Str × Bool)) (pac : Map Bool) (key : Str) :
    mapGet (rules.foldl (fun pac r => Pac.Add pac r.1 r.2) pac) key =
      match rules.reverse.find? fun r => r.1 = key with
      | some r => some r.2
      | none => mapGet pac key := by
  induction rules generalizing pac with
  | nil => simp
  | cons r rules ih =>
    simp only [List.foldl_cons, ih, List.reverse_cons, List.find?_append]
    cases hf : rules.reverse.find? fun r => decide (r.1 = key) with
    | some r1 => simp
    | none =>
      by_cases hk : r.1 = key <;> simp [Pac.Add, mapGet_mapSet, hk]

theorem firstRule_nil (keys : List Str) : firstRule [] keys = none := by
  simp [firstRule, mapGet]

/-- `Check` tries the dot-separated suffixes of the host, longest first. -/
theorem Check_eq (pac : Map Bool) (addr : Str) :
    Pac.Check pac addr = some ((firstRule pac (domainSuffixes (hostOf addr))).getD false) := by
  unfold Pac.Check
  by_cases hlen : pac.length = 0
  · have hp : pac = [] := List.length_eq_zero.mp hlen
    simp [hp, firstRule_nil]
  · rw [if_neg hlen]
    simp only [Split_head, hostOf, Option.bind_eq_bind, Option.some_bind, Option.pure_def]
    rw [range_findSome, joined_tails_Split]

theorem firstRule_append_cons (pac : Map Bool) (pre post : List Str) (k : Str) (v : Bool)
    (hpre : ∀ x ∈ pre, mapGet pac x = none) (hk : mapGet pac k = some v) :
    firstRule pac (pre ++ k :: post) = some v := by
  induction pre with
  | nil => simp [firstRule, hk]
  | cons x pre ih =>
    have hx := hpre x (List.mem_cons_self x pre)
    have ih2 := ih fun y hy => hpre y (List.mem_cons_of_mem x hy)
    simpa [firstRule, hx] using ih2

theorem firstRule_none (pac : Map Bool) (keys : List Str)
    (h : ∀ x ∈ keys, mapGet pac x = none) : firstRule pac keys = none := by
  simpa [firstRule] using h

/-- C19: for every rule table built with `Add` and every address, `Check`
takes as host the text before the first `:` and returns the value stored for
the longest dot-separated suffix of the host (the whole host first, then the
host with leading labels removed one at a time) that is a key of the table,
and `false` when no suffix is a key, in particular when the table is empty;
the value stored for a key is that of the last `Add` for it.  So the rule of a
more specific domain overrides the rule of its parent. -/
theorem Check_longest_suffix (rules : List (Str × Bool)) (addr : Str) :
    Pac.Check (Pac.build rules) addr =
      some ((firstRule (Pac.build rules) (domainSuffixes (hostOf addr))).getD false) ∧
    (∀ pre k post v, domainSuffixes (hostOf addr) = pre ++ k :: post →
      (∀ x ∈ pre, mapGet (Pac.build rules) x = none) →
      mapGet (Pac.build rules) k = some v → Pac.Check (Pac.build rules) addr = some v) ∧
    ((∀ x ∈ domainSuffixes (hostOf addr), mapGet (Pac.build rules) x = none) →
      Pac.Check (Pac.build rules) addr = some false) ∧
    (rules = [] → Pac.Check (Pac.build rules) addr = some false) ∧
    (∀ key, mapGet (Pac.build rules) key =
      (rules.reverse.find? fun r => r.1 = key).map fun r => r.2) := by
  refine ⟨Check_eq _ addr, ?_, ?_, ?_, ?_⟩
  · intro pre k post v hsuf hpre hk
    rw [Check_eq, hsuf, firstRule_append_cons _ pre post k v hpre hk]
    rfl
  · intro hnone
    rw [Check_eq, firstRule_none _ _ hnone]
    rfl
  · intro hr
    subst hr
    rfl
  · intro key
    have h := mapGet_foldl_Add rules [] key
    unfold Pac.build
    rw [h]
    cases rules.reverse.find? fun r => decide (r.1 = key) <;> simp [mapGet]

/-- The rule of `cdn.example.com` overrides that of `example.com` for the
address `a.cdn.example.com:443`, and `example.com` decides for
`www.example.com:80`. -/
theorem Check_sample :
    Pac.Check (Pac.build sampleRules) "a.cdn.example.com:443".toList = some false ∧
    Pac.Check (Pac.build sampleRules) "www.example.com:80".toList = some true ∧
    Pac.Check (Pac.build sampleRules) "example.org".toList = some false := by
  decide

/-! ## `XormDao.Exec` -/

/-- C17 fails on the code: `Exec("DELETE FROM t WHERE id = ?", 5)` calls the
engine with the bind value alone, not with the statement followed by the bind
value, although the slice built for the call holds both; and
`Replace("REPLACE INTO t SET ", {"Name": "x"})` calls it with `"x"` alone. -/
theorem Exec_drops_statement :
    XormDao.Exec id "DELETE FROM t WHERE id = ?".toList [SqlArg.int 5] = [SqlArg.int 5] ∧
    XormDao.Exec id "DELETE FROM t WHERE id = ?".toList [SqlArg.int 5] ≠
      [SqlArg.text "DELETE FROM t WHERE id = ?".toList, SqlArg.int 5] ∧
    XormDao.Exec.tmp "DELETE FROM t WHERE id = ?".toList [SqlArg.int 5] =
      [SqlArg.null, SqlArg.null, SqlArg.text "DELETE FROM t WHERE id = ?".toList,
        SqlArg.int 5] ∧
    XormDao.Replace id asciiLower "REPLACE INTO t SET ".toList
      [("Name".toList, SqlArg.text "x".toList)] = [SqlArg.text "x".toList] ∧
    XormDao.Replace id asciiLower "REPLACE INTO t SET ".toList
      [("Name".toList, SqlArg.text "x".toList)] ≠
      [SqlArg.text "REPLACE INTO t SET `name` = ?".toList, SqlArg.text "x".toList] := by
  decide

/-! ## `GetCredentialsByCA` -/

/-- C18 fails on the code: the key pair loads and the CA file is read, but no
certificate of it can be appended to the pool; `GetCredentialsByCA` returns
nil credentials together with a nil error. -/
theorem GetCredentialsByCA_nil_nil :
    GetCredentialsByCA "server.grpc.io".toList
      { keyPair := Except.ok 1, caFile := Except.ok "not a certificate".toList,
        appendOk := false } = (none, none) := by
  decide

/-- On every other outcome of the three calls `GetCredentialsByCA` returns
either credentials and a nil error or nil credentials and an error. -/
theorem GetCredentialsByCA_otherwise (serverName : Str) (calls : CaCalls)
    (h : calls.appendOk = true ∨ (∃ e, calls.keyPair = Except.error e) ∨
      ∃ e, calls.caFile = Except.error e) :
    ((GetCredentialsByCA serverName calls).1.isSome = true ∧
      (GetCredentialsByCA serverName calls).2 = none) ∨
    ((GetCredentialsByCA serverName calls).1 = none ∧
      (GetCredentialsByCA serverName calls).2.isSome = true) := by
  obtain ⟨kp, ca, ok⟩ := calls
  cases kp <;> cases ca <;> cases ok <;> simp [GetCredentialsByCA] at h ⊢

end Hfw
